import Mathlib

/-!
Verification development for the Riverside Town agent simulation.

The definitions below are a shallow embedding of the Python sources:
  src/characters/base_character.py  (PersonalityTraits, BaseCharacter)
  src/characters/ai_characters.py   (DeepSeaResearcher, ERSurgeon)
  src/npcs/npc_system.py            (NPC)
  src/npcs/npc_manager.py           (NPCManager)
  src/world/world_state.py          (World)

Conventions of the embedding:
* Python objects are identified by a numeric id; the world stores the single
  authoritative copy of every agent in an association list keyed by id, which
  models Python object references and aliasing (the world and the occupant
  lists refer to the same mutable object).
* Randomness is passed in explicitly: every call of the Python `random`
  module becomes an oracle argument (an index used modulo the list length
  for `random.choice` / `random.randint`, a rational for `random.uniform`
  and `random.random`, a Bool for a comparison of `random.random` with a
  constant).  Theorems quantify over all oracles.
* Python floats are modelled as rationals; the float literals 0.02, 0.01,
  0.1 appearing in the sources are exact in this model.
* datetime timestamps are presentational and are dropped; the world clock is
  a count of elapsed hours.  Event description strings interpolate display
  names and are abbreviated to the empty string: no claim depends on them.
* `sqlite3` persistence is an event sink; the world event log embeds it as
  an append-only list.
-/

/-- One record of `BaseCharacter.memories` (content and importance; the
datetime timestamp carries no information used by the code). -/
structure MemoryEntry where
  content : String
  importance : Int
deriving DecidableEq

/-- One value of the `BaseCharacter.relationships` dict. -/
structure Relationship where
  rtype : String
  strength : Int
deriving DecidableEq

/-- The ten-trait personality vector of `PersonalityTraits` in
base_character.py.  Fields are integers as in the source; validity is
checked by `mkPersonalityTraits` below. -/
structure PersonalityTraits where
  curiosity : Int
  empathy : Int
  confidence : Int
  creativity : Int
  analytical : Int
  social : Int
  cautious : Int
  ambitious : Int
  humor : Int
  adaptability : Int
deriving DecidableEq

/-- The ten trait values in the declaration order of the source. -/
def traitList (p : PersonalityTraits) : List Int :=
  [p.curiosity, p.empathy, p.confidence, p.creativity, p.analytical,
   p.social, p.cautious, p.ambitious, p.humor, p.adaptability]

/-- The failure kinds of profile construction: pydantic rejects a field
outside `Field(ge=0, le=100)` (trait-range), and `model_post_init` raises
when the ten values do not sum to 100 (trait-sum). -/
inductive ValidationKind where
  | traitRange : ValidationKind
  | traitSum : ValidationKind
deriving DecidableEq

/-- Bool test that every value lies in [0, 100]. -/
def traitsInRange (l : List Int) : Bool :=
  l.all (fun v => decide (0 ≤ v) && decide (v ≤ 100))

/-- Construction of `PersonalityTraits(...)`: pydantic validates the
per-field bounds `ge=0, le=100` first, then `model_post_init` checks that
the ten values sum to exactly 100.  A successful construction returns the
profile. -/
def mkPersonalityTraits (c e cf cr an so ca am hu ad : Int) :
    Except ValidationKind PersonalityTraits :=
  let p : PersonalityTraits := ⟨c, e, cf, cr, an, so, ca, am, hu, ad⟩
  if traitsInRange (traitList p) then
    if (traitList p).sum = 100 then .ok p else .error .traitSum
  else .error .traitRange

/-- Sequential budget allocation of `NPC._generate_random_personality`:
given the remaining budget and the raw draws for the remaining non-final
traits, emit for each draw `randint(0, min(remaining, 30))` points
(modelled as the draw taken modulo `min remaining 30 + 1`) and finally the
whole leftover budget. -/
def allocate : Nat → List Nat → List Nat
  | remaining, [] => [remaining]
  | remaining, d :: ds =>
      let points := d % (min remaining 30 + 1)
      points :: allocate (remaining - points) ds

/-- `NPC._generate_random_personality`: iterate the ten trait names in
declaration order, draw `randint(0, min(remaining, 30))` for the first
nine and give the tenth (adaptability) the leftover budget.  The nine raw
draws come from the oracle `draws`.  The default branch of the match is
unreachable: `allocate` applied to a nine-element list returns ten
values. -/
def generate_random_personality (draws : Nat → Nat) : PersonalityTraits :=
  match allocate 100 [draws 0, draws 1, draws 2, draws 3, draws 4,
                      draws 5, draws 6, draws 7, draws 8] with
  | [c, e, cf, cr, an, so, ca, am, hu, ad] =>
      ⟨(c : Int), (e : Int), (cf : Int), (cr : Int), (an : Int),
       (so : Int), (ca : Int), (am : Int), (hu : Int), (ad : Int)⟩
  | _ => ⟨0, 0, 0, 0, 0, 0, 0, 0, 0, 100⟩

lemma allocate_sum (r : Nat) (ds : List Nat) : (allocate r ds).sum = r := by
  induction ds generalizing r with
  | nil => simp [allocate]
  | cons d ds ih =>
      have hle : d % (min r 30 + 1) ≤ min r 30 :=
        Nat.lt_succ_iff.mp (Nat.mod_lt _ (Nat.succ_pos _))
      have hr : d % (min r 30 + 1) ≤ r := le_trans hle (min_le_left _ _)
      simp only [allocate, List.sum_cons, ih]
      omega

lemma allocate_le (r : Nat) (ds : List Nat) (hr : r ≤ 100) :
    ∀ x ∈ allocate r ds, x ≤ 100 := by
  induction ds generalizing r with
  | nil => intro x hx; simp [allocate] at hx; omega
  | cons d ds ih =>
      intro x hx
      have hle : d % (min r 30 + 1) ≤ min r 30 :=
        Nat.lt_succ_iff.mp (Nat.mod_lt _ (Nat.succ_pos _))
      simp only [allocate, List.mem_cons] at hx
      rcases hx with hx | hx
      · omega
      · exact ih _ (by omega) x hx

lemma allocate_length (r : Nat) (ds : List Nat) :
    (allocate r ds).length = ds.length + 1 := by
  induction ds generalizing r with
  | nil => simp [allocate]
  | cons d ds ih => simp [allocate, ih]

/-- The concrete class of a character object, used to model Python virtual
method dispatch: BaseCharacter, NPC (npc_system.py), DeepSeaResearcher and
ERSurgeon (ai_characters.py). -/
inductive Role where
  | generic : Role
  | townsperson : Role
  | researcher : Role
  | surgeon : Role
deriving DecidableEq

/-- One entry of `NPC.daily_routine`: the source stores the hour as the
string "H:00" and reads it back with `int(time.split(":")[0])`; the
embedding keeps the hour directly. -/
structure RoutineEntry where
  hour : Nat
  activity : String
  location : String
  duration : Nat
deriving DecidableEq

/-- One record of `ERSurgeon.medical_cases` (the constant "successful"
outcome and the timestamp are dropped). -/
structure SurgeryCase where
  stype : String
  complexity : String
deriving DecidableEq

/-- Union of the fields of BaseCharacter and its three subclasses.  Python
defines the subclass fields only on instances of that subclass; the
embedding carries them on every agent (they are defaulted at construction
and only the methods of the matching `role` read or write them). -/
structure Agent where
  name : String
  job : String
  age : Int
  personality : PersonalityTraits
  location : String
  mood : String
  energy : Int
  current_activity : String
  relationships : List (String × Relationship)
  memories : List MemoryEntry
  role : Role
  daily_routine : List RoutineEntry
  preferred_locations : List String
  work_schedule : List (String × Bool)
  samples_collected : Int
  discoveries : List String
  patients_treated : Int
  surgeries_performed : Int
  medical_cases : List SurgeryCase
deriving DecidableEq

/-- `BaseCharacter.__init__`: situational state starts at the defaults
`location = "town_center"`, `mood = "neutral"`, `energy = 100`,
`current_activity = "idle"`, with empty relationships, memories, goals and
skills.  Subclass-only fields start empty or zero. -/
def mkBaseCharacter (name job : String) (personality : PersonalityTraits)
    (age : Int) : Agent :=
  { name := name
    job := job
    age := age
    personality := personality
    location := "town_center"
    mood := "neutral"
    energy := 100
    current_activity := "idle"
    relationships := []
    memories := []
    role := Role.generic
    daily_routine := []
    preferred_locations := []
    work_schedule := []
    samples_collected := 0
    discoveries := []
    patients_treated := 0
    surgeries_performed := 0
    medical_cases := [] }

/-- Stable insertion with respect to descending importance: the new entry
passes over every entry of greater or equal importance, so entries of
equal importance keep their original relative order. -/
def insertDesc (m : MemoryEntry) : List MemoryEntry → List MemoryEntry
  | [] => [m]
  | x :: xs =>
      if m.importance ≤ x.importance then x :: insertDesc m xs
      else m :: x :: xs

/-- Model of the Python call `sorted(memories, key=importance,
reverse=True)`.  Python `sorted` is specified to be stable, and stable
sorting by a fixed key order is a unique function of the input, so the
stable insertion sort below is extensionally the same function. -/
def sortedByImportanceDesc (l : List MemoryEntry) : List MemoryEntry :=
  l.foldl (fun acc m => insertDesc m acc) []

/-- `BaseCharacter.add_memory`: append the record, then if the log now
exceeds 50 entries re-rank by importance descending (stably) and keep the
top 50. -/
def add_memory (content : String) (importance : Int) (a : Agent) : Agent :=
  let ms := a.memories ++ [⟨content, importance⟩]
  if 50 < ms.length then
    { a with memories := (sortedByImportanceDesc ms).take 50 }
  else
    { a with memories := ms }

/-- Assignment `d[k] = v` on a Python dict modelled as an association
list: overwrite in place if the key is present, else append. -/
def setAssoc {β : Type} (l : List (String × β)) (k : String) (v : β) :
    List (String × β) :=
  if l.any (fun p => p.1 == k) then
    l.map (fun p => if p.1 == k then (k, v) else p)
  else l ++ [(k, v)]

/-- Lookup `d.get(k)` on a Python dict modelled as an association list. -/
def lookupAssoc {β : Type} (l : List (String × β)) (k : String) : Option β :=
  (l.find? (fun p => p.1 == k)).map (fun p => p.2)

/-- `BaseCharacter.add_relationship` (creation time dropped). -/
def add_relationship (cname rtype : String) (strength : Int) (a : Agent) :
    Agent :=
  { a with relationships := setAssoc a.relationships cname ⟨rtype, strength⟩ }

/-- `BaseCharacter.set_activity` (the last-action timestamp is
presentational and dropped). -/
def set_activity (activity : String) (a : Agent) : Agent :=
  { a with current_activity := activity }

/-- One row of the world event log (the wall-clock timestamp written by
`log_event` is dropped; description strings are abbreviated to ""). -/
structure WorldEvent where
  event_type : String
  description : String
  location : String
  participants : String
deriving DecidableEq

/-- `World` from world_state.py: the five declared locations with their
occupant lists (agent ids), the registry of character objects (ids of the
two Python lists `ai_characters` and `npcs` point into `agents`), the
clock as elapsed hours, and the append-only event log. -/
structure World where
  timeHours : Nat
  locations : List (String × List Nat)
  agents : List (Nat × Agent)
  ai_characters : List Nat
  npcs : List Nat
  events : List WorldEvent
deriving DecidableEq

/-- The five locations declared by `World.__init__`, in order, initially
empty (display names and descriptions dropped). -/
def initialLocations : List (String × List Nat) :=
  [("riverside", []), ("hospital", []), ("research_station", []),
   ("town_center", []), ("marina", [])]

/-- A fresh world as built by `World.__init__`. -/
def initialWorld : World :=
  { timeHours := 0
    locations := initialLocations
    agents := []
    ai_characters := []
    npcs := []
    events := [] }

/-- Dereference an agent id (Python: follow the object reference). -/
def lookupAgent (w : World) (cid : Nat) : Option Agent :=
  (w.agents.find? (fun p => p.1 == cid)).map (fun p => p.2)

/-- Mutate the object behind an agent id (Python: attribute assignment on
the shared object). -/
def updateAgent (w : World) (cid : Nat) (f : Agent → Agent) : World :=
  { w with agents := w.agents.map (fun p => if p.1 == cid then (p.1, f p.2) else p) }

/-- Apply a per-location update to every occupant list. -/
def mapOccupants (w : World) (f : String → List Nat → List Nat) : World :=
  { w with locations := w.locations.map (fun p => (p.1, f p.1 p.2)) }

/-- The occupant list of a location key ([] for an undeclared key). -/
def getOccupants (w : World) (key : String) : List Nat :=
  match w.locations.find? (fun p => p.1 == key) with
  | some p => p.2
  | none => []

/-- Bool test for `location_key in self.locations`. -/
def hasLocation (w : World) (key : String) : Bool :=
  w.locations.any (fun p => p.1 == key)

/-- `World.log_event` (timestamp dropped, description abbreviated). -/
def log_event (w : World) (etype desc loc parts : String) : World :=
  { w with events := w.events ++ [⟨etype, desc, loc, parts⟩] }

/-- The name of the object behind an id, "" if the id is unregistered. -/
def agentName (w : World) (cid : Nat) : String :=
  match lookupAgent w cid with
  | some a => a.name
  | none => ""

/-- `World.move_character`: with a declared location key, remove the
character from every occupant list that contains it (`list.remove`, which
drops the first occurrence), append it to the target occupant list, set
`character.location`, and log one `character_movement` event.  With an
undeclared key the call does nothing. -/
def move_character (w : World) (cid : Nat) (location_key : String) : World :=
  if hasLocation w location_key then
    let w1 := mapOccupants w (fun _ occ => occ.erase cid)
    let w2 := mapOccupants w1
      (fun k occ => if k == location_key then occ ++ [cid] else occ)
    let w3 := updateAgent w2 cid (fun a => { a with location := location_key })
    log_event w3 "character_movement" "" location_key (agentName w3 cid)
  else w

/-- `World.add_character`: register the object, classify it into
`ai_characters` when its job is one of the two principal jobs and into
`npcs` otherwise (every character object has a `job` attribute, so the
`hasattr` guard always passes), and log one `character_added` event.  The
occupant lists are not touched. -/
def add_character (w : World) (cid : Nat) (character : Agent) : World :=
  let w1 := { w with agents := w.agents ++ [(cid, character)] }
  let w2 :=
    if character.job == "Deep Sea Researcher" || character.job == "ER Surgeon" then
      { w1 with ai_characters := w1.ai_characters ++ [cid] }
    else
      { w1 with npcs := w1.npcs ++ [cid] }
  log_event w2 "character_added" "" "town_center" character.name

/-- `World.update_time`: advance the clock by whole hours and log a
`time_update` event. -/
def update_time (w : World) (hours : Nat) : World :=
  log_event { w with timeHours := w.timeHours + hours }
    "time_update" "" "global" ""

/-- `BaseCharacter.get_possible_actions`: the universal actions, plus
job-specific actions for the two principal jobs, plus location-specific
actions (the `world` parameter is unused by the source body). -/
def base_get_possible_actions (a : Agent) : List String :=
  let actions := ["rest", "explore", "socialize"]
  let actions :=
    if a.job == "Deep Sea Researcher" then
      actions ++ ["research", "collect_samples", "analyze_data"]
    else if a.job == "ER Surgeon" then
      actions ++ ["treat_patients", "study_medical_texts", "emergency_response"]
    else actions
  if a.location == "riverside" then
    actions ++ ["fish", "walk_trails", "enjoy_nature"]
  else if a.location == "hospital" then
    actions ++ ["visit_patients", "consult_colleagues"]
  else if a.location == "research_station" then
    actions ++ ["conduct_research", "use_equipment"]
  else actions

/-- The weight `BaseCharacter.choose_action` assigns to one action: start
at 1, add the category bonus of the fixed trait table (investigative
actions add curiosity*0.02 + analytical*0.02, social actions add
social*0.02 + empathy*0.02, explore adds curiosity*0.02 +
adaptability*0.02, rest adds (100 - energy)*0.01), then clamp from below
by 0.1. -/
def actionWeight (p : PersonalityTraits) (energy : Int) (action : String) : ℚ :=
  let weight : ℚ := 1
  let weight :=
    if action == "research" || action == "analyze_data" || action == "conduct_research" then
      weight + (p.curiosity : ℚ) * (2 / 100) + (p.analytical : ℚ) * (2 / 100)
    else if action == "socialize" || action == "visit_patients" then
      weight + (p.social : ℚ) * (2 / 100) + (p.empathy : ℚ) * (2 / 100)
    else if action == "explore" then
      weight + (p.curiosity : ℚ) * (2 / 100) + (p.adaptability : ℚ) * (2 / 100)
    else if action == "rest" then
      weight + ((100 : ℚ) - (energy : Int)) * (1 / 100)
    else weight
  max weight (1 / 10)

/-- The cumulative-weight walk of `BaseCharacter.choose_action`: return
the first action whose running total reaches the drawn value, or none
when the loop falls through. -/
def walkWeights (choice : ℚ) (current : ℚ) :
    List (String × ℚ) → Option String
  | [] => none
  | (action, weight) :: rest =>
      if choice ≤ current + weight then some action
      else walkWeights choice (current + weight) rest

/-- The `trait_weights` dict of `BaseCharacter.choose_action`: one entry
per distinct action (Python dict keys are unique and iterate in first
insertion order; `possible_actions` holds no duplicates in practice, and
`eraseDups` keeps first occurrences), holding its clamped weight. -/
def traitWeights (p : PersonalityTraits) (energy : Int)
    (possible_actions : List String) : List (String × ℚ) :=
  possible_actions.eraseDups.map (fun action => (action, actionWeight p energy action))

/-- `BaseCharacter.choose_action`: build the weight table, draw
`random.uniform(0, total_weight)` (the oracle value `choice`), walk the
cumulative weights returning the first action whose running total reaches
the draw, and fall back to `random.choice(possible_actions)` (the oracle
index `fallbackIdx`) if the walk falls through. -/
def choose_action (p : PersonalityTraits) (energy : Int)
    (possible_actions : List String) (choice : ℚ) (fallbackIdx : Nat) : String :=
  let weights := traitWeights p energy possible_actions
  match walkWeights choice 0 weights with
  | some action => action
  | none => possible_actions.getD (fallbackIdx % possible_actions.length) ""

/-- The random draws consumed by one `take_action` call (any subset may be
read, depending on the branch taken). -/
structure ActionOracle where
  choice : ℚ
  fallbackIdx : Nat
  exploreIdx : Nat
  partnerIdx : Nat
  topicIdx : Nat
  eventIdx : Nat
  strengthDraw : Nat
  patientsDraw : Nat
  samplesDraw : Nat
  depthDraw : Nat
  discoveryRoll : ℚ
  discoveryIdx : Nat
  surgeryIdx : Nat
  complexityIdx : Nat
  trainTopicIdx : Nat
  emergencyIdx : Nat
deriving DecidableEq

/-- The `rest` branch of `BaseCharacter.execute_action`: energy rises by
20 capped at 100 and a memory of importance 2 is recorded. -/
def base_rest_effect (cid : Nat) (w : World) : World :=
  updateAgent w cid (fun a =>
    add_memory "I rested and feel more energetic" 2
      { a with energy := min 100 (a.energy + 20) })

/-- The `explore` branch of `BaseCharacter.execute_action`: move to a
uniformly chosen location different from the current one and record a
memory of importance 4. -/
def base_explore_effect (o : ActionOracle) (cid : Nat) (w : World) : World :=
  match lookupAgent w cid with
  | some a =>
      let candidates := (w.locations.map Prod.fst).filter (fun k => k != a.location)
      let new_location := candidates.getD (o.exploreIdx % candidates.length) ""
      let w := move_character w cid new_location
      updateAgent w cid (add_memory "I explored and moved" 4)
  | none => w

/-- The `socialize` branch of `BaseCharacter.execute_action`: with a
co-located partner chosen uniformly among the other occupants, record a
memory of importance 5 and add an acquaintance relationship of strength
30 when none exists yet. -/
def base_socialize_effect (o : ActionOracle) (cid : Nat) (w : World) : World :=
  match lookupAgent w cid with
  | some a =>
      let location_occupants := getOccupants w a.location
      if 1 < location_occupants.length then
        let other_chars := location_occupants.filter (fun oc => oc != cid)
        if other_chars.isEmpty then w
        else
          let partner := other_chars.getD (o.partnerIdx % other_chars.length) 0
          let pname := agentName w partner
          let w := updateAgent w cid
            (add_memory ("I socialized with " ++ pname) 5)
          updateAgent w cid (fun a =>
            if a.relationships.any (fun r => r.1 == pname) then a
            else add_relationship pname "acquaintance" 30 a)
      else w
  | none => w

/-- `BaseCharacter.execute_action` applied to the agent behind `cid`: set
the activity, apply the rest / explore / socialize effect, then
unconditionally drop energy by 5 floored at 0.  `random.choice(seq)` is
modelled as indexing by the oracle value modulo `seq.length`. -/
def base_execute_action (o : ActionOracle) (cid : Nat) (action : String)
    (w : World) : World :=
  let w := updateAgent w cid (set_activity action)
  let w :=
    if action == "rest" then base_rest_effect cid w
    else if action == "explore" then base_explore_effect o cid w
    else if action == "socialize" then base_socialize_effect o cid w
    else w
  updateAgent w cid (fun a => { a with energy := max 0 (a.energy - 5) })

/-- `NPC._generate_background` (job → description lookup with generic
fallback; the strings are irrelevant to every claim and abbreviated to
the job keys of the table). -/
def npc_generate_background (job : String) : String :=
  let keys := ["shopkeeper", "teacher", "fisherman", "chef", "librarian",
    "mechanic", "artist", "farmer", "postal_worker", "security_guard",
    "cafe_owner", "boat_captain", "gardener", "carpenter", "journalist"]
  if keys.contains job then "background of " ++ job
  else "Local resident working as a " ++ job ++ " in the riverside community"

/-- `NPC._get_work_location`. -/
def npc_work_location (job : String) : String :=
  let work_locations : List (String × String) :=
    [("shopkeeper", "town_center"), ("teacher", "town_center"),
     ("fisherman", "riverside"), ("chef", "town_center"),
     ("librarian", "town_center"), ("mechanic", "town_center"),
     ("artist", "riverside"), ("farmer", "riverside"),
     ("postal_worker", "town_center"), ("security_guard", "town_center"),
     ("cafe_owner", "town_center"), ("boat_captain", "marina"),
     ("gardener", "riverside"), ("carpenter", "town_center"),
     ("journalist", "town_center")]
  (lookupAssoc work_locations job).getD "town_center"

/-- `NPC._get_preferred_locations`. -/
def npc_preferred_locations (p : PersonalityTraits) : List String :=
  if 20 ≤ p.social then ["town_center", "riverside", "marina"]
  else if 20 ≤ p.curiosity then ["research_station", "riverside", "town_center"]
  else if 20 ≤ p.cautious then ["town_center", "hospital"]
  else ["riverside", "town_center"]

/-- The random draws consumed by the `NPC` constructor. -/
structure NPCGenOracle where
  persDraws : Nat → Nat
  ageDraw : Nat
  workHoursDraw : Nat
  startTimeDraw : Nat
  socialCoin : Bool
  socialLocIdx : Nat
  satCoin : Bool
  sunCoin : Bool
deriving Inhabited

/-- `NPC._generate_work_schedule`. -/
def npc_generate_work_schedule (job : String) (o : NPCGenOracle) :
    List (String × Bool) :=
  if job == "fisherman" || job == "farmer" || job == "gardener" then
    [("monday", true), ("tuesday", true), ("wednesday", true),
     ("thursday", true), ("friday", true), ("saturday", true),
     ("sunday", false)]
  else if job == "teacher" || job == "librarian" || job == "postal_worker" then
    [("monday", true), ("tuesday", true), ("wednesday", true),
     ("thursday", true), ("friday", true), ("saturday", false),
     ("sunday", false)]
  else
    [("monday", true), ("tuesday", true), ("wednesday", true),
     ("thursday", true), ("friday", true), ("saturday", o.satCoin),
     ("sunday", o.sunCoin)]

/-- `NPC._generate_daily_routine`: work hours `randint(6,10)`, start time
`randint(6,9)`, a lunch break, an optional social entry (taken when
`random.random() > 0.7`, modelled by `socialCoin`), and a personal-time
entry at the sentinel location "home". -/
def npc_generate_daily_routine (job : String) (o : NPCGenOracle) :
    List RoutineEntry :=
  let work_hours := 6 + o.workHoursDraw % 5
  let start_time := 6 + o.startTimeDraw % 4
  let routine := [⟨start_time, "work", npc_work_location job, work_hours⟩]
  let lunch_time := start_time + work_hours / 2
  let routine := routine ++ [⟨lunch_time, "lunch_break", "town_center", 1⟩]
  let routine :=
    if o.socialCoin then
      let loc := ["town_center", "riverside"].getD (o.socialLocIdx % 2) ""
      routine ++ [⟨start_time + work_hours + 1, "social_time", loc, 2⟩]
    else routine
  routine ++ [⟨start_time + work_hours + 3, "personal_time", "home", 3⟩]

/-- `NPC.__init__` with `age=None, background=""`: generate the
personality, draw the age from `randint(18, 75)`, derive the background,
run the base constructor, then set the townsperson fields. -/
def npcNew (name job : String) (o : NPCGenOracle) : Agent :=
  let personality := generate_random_personality o.persDraws
  let age : Int := 18 + (o.ageDraw % 58 : Nat)
  let base := mkBaseCharacter name job personality age
  { base with
    role := Role.townsperson
    daily_routine := npc_generate_daily_routine job o
    preferred_locations := npc_preferred_locations personality
    work_schedule := npc_generate_work_schedule job o }

/-- `NPC.get_possible_actions`: the base actions, then the generic
townsperson actions, job-specific actions, and location-specific
actions. -/
def npc_get_possible_actions (a : Agent) : List String :=
  let base_actions := base_get_possible_actions a
  let npc_actions := ["work_at_job", "chat_with_neighbors",
    "shop_for_supplies", "enjoy_hobby", "visit_family",
    "attend_community_event", "help_neighbor", "take_walk",
    "read_local_news", "maintain_home"]
  let job_specific : List (String × List String) :=
    [("fisherman", ["cast_fishing_line", "repair_nets", "sell_fish"]),
     ("shopkeeper", ["serve_customers", "restock_inventory", "count_register"]),
     ("teacher", ["prepare_lessons", "grade_papers", "tutor_students"]),
     ("chef", ["prepare_meals", "shop_for_ingredients", "experiment_recipes"]),
     ("artist", ["paint_landscape", "sketch_people", "sell_artwork"]),
     ("farmer", ["tend_crops", "feed_animals", "harvest_produce"]),
     ("mechanic", ["repair_vehicles", "order_parts", "maintain_tools"]),
     ("librarian", ["organize_books", "help_patrons", "read_quietly"]),
     ("boat_captain", ["check_boat_engine", "navigate_river", "transport_passengers"]),
     ("gardener", ["water_plants", "prune_trees", "plant_flowers"])]
  let npc_actions := npc_actions ++ ((lookupAssoc job_specific a.job).getD [])
  let location_actions : List (String × List String) :=
    [("riverside", ["watch_sunset", "feed_ducks", "collect_river_stones"]),
     ("town_center", ["window_shop", "people_watch", "buy_newspaper"]),
     ("hospital", ["visit_doctor", "volunteer_help"]),
     ("marina", ["admire_boats", "talk_to_sailors"]),
     ("research_station", ["ask_about_research", "observe_scientists"])]
  let npc_actions := npc_actions ++ ((lookupAssoc location_actions a.location).getD [])
  base_actions ++ npc_actions

/-- `NPC.execute_action`: run the base effect, then the townsperson
branches (work_at_job moves to the work location and re-sets the
activity; chat_with_neighbors remembers a chat and may add a neighbor
relationship with strength `randint(40, 70)`; attend_community_event and
the three skill actions add a memory and log an event). -/
def npc_execute_action (o : ActionOracle) (cid : Nat) (action : String)
    (w : World) : World :=
  let w := base_execute_action o cid action w
  if action == "work_at_job" then
    match lookupAgent w cid with
    | some a =>
        let work_location := npc_work_location a.job
        let w := if a.location != work_location then
            move_character w cid work_location
          else w
        let w := updateAgent w cid (set_activity ("working as " ++ a.job))
        updateAgent w cid (add_memory ("Completed work duties as " ++ a.job) 4)
    | none => w
  else if action == "chat_with_neighbors" then
    match lookupAgent w cid with
    | some a =>
        let location_occupants := getOccupants w a.location
        let other_people := location_occupants.filter (fun oc => oc != cid)
        if other_people.isEmpty then w
        else
          let partner := other_people.getD (o.partnerIdx % other_people.length) 0
          let pname := agentName w partner
          let topics := ["weather", "local_news", "family", "work", "hobbies",
            "river_conditions", "town_events", "fishing_spots"]
          let topic := topics.getD (o.topicIdx % topics.length) ""
          let w := updateAgent w cid
            (add_memory ("Had a nice chat with " ++ pname ++ " about " ++ topic) 5)
          let w := updateAgent w cid (fun a =>
            if a.relationships.any (fun r => r.1 == pname) then a
            else add_relationship pname "neighbor" (40 + (o.strengthDraw % 31 : Nat)) a)
          log_event w "social_interaction" "" a.location (a.name ++ ", " ++ pname)
    | none => w
  else if action == "attend_community_event" then
    let event_types := ["town_meeting", "festival", "market_day", "concert",
      "art_show", "book_reading", "fishing_competition"]
    let event := event_types.getD (o.eventIdx % event_types.length) ""
    let w := updateAgent w cid
      (add_memory ("Attended " ++ event ++ " - met some interesting people") 6)
    match lookupAgent w cid with
    | some a => log_event w "community_event" "" a.location a.name
    | none => w
  else if action == "cast_fishing_line" || action == "paint_landscape"
      || action == "tend_crops" then
    let w := updateAgent w cid
      (add_memory ("Practiced " ++ action ++ " and improved my skills") 4)
    match lookupAgent w cid with
    | some a => log_event w "skill_development" "" a.location a.name
    | none => w
  else w

/-- `NPC.follow_routine`: apply the first routine entry whose hour equals
the current hour; entries at the sentinel "home" or at an undeclared
location change only the activity. -/
def follow_routine (cid : Nat) (current_hour : Nat) (w : World) : World :=
  match lookupAgent w cid with
  | some a =>
      match a.daily_routine.find? (fun r => r.hour == current_hour) with
      | some r =>
          let w :=
            if r.location != "home" && hasLocation w r.location then
              move_character w cid r.location
            else w
          updateAgent w cid (set_activity r.activity)
      | none => w
  | none => w

/-- `DeepSeaResearcher.get_possible_actions`. -/
def researcher_get_possible_actions (a : Agent) : List String :=
  let base_actions := base_get_possible_actions a
  let researcher_actions := ["collect_water_samples", "analyze_specimens",
    "document_findings", "calibrate_equipment", "plan_dive_expedition",
    "review_research_data", "prepare_dive_equipment", "study_water_currents",
    "photograph_specimens", "update_field_notes"]
  let researcher_actions :=
    if a.location == "riverside" then
      researcher_actions ++ ["dive_for_samples", "test_water_quality",
        "observe_fish_behavior", "map_underwater_terrain"]
    else if a.location == "research_station" then
      researcher_actions ++ ["use_laboratory_equipment", "process_samples",
        "write_research_report", "video_conference_with_colleagues"]
    else researcher_actions
  base_actions ++ researcher_actions

/-- `DeepSeaResearcher.execute_action`: the base effect, then the four
researcher branches (sample collection `randint(1,3)`, specimen analysis
with a discovery when `random.random() > 0.7`, riverside dives
`randint(2,5)`, and documentation). -/
def researcher_execute_action (o : ActionOracle) (cid : Nat) (action : String)
    (w : World) : World :=
  let w := base_execute_action o cid action w
  if action == "collect_water_samples" then
    let w := updateAgent w cid (fun a =>
      add_memory "Collected water samples" 6
        { a with samples_collected := a.samples_collected + (1 + (o.samplesDraw % 3 : Nat)) })
    match lookupAgent w cid with
    | some a => log_event w "research_activity" "" a.location a.name
    | none => w
  else if action == "analyze_specimens" then
    match lookupAgent w cid with
    | some a =>
        if 0 < a.samples_collected then
          if (7 : ℚ) / 10 < o.discoveryRoll then
            let kinds := ["algae", "bacteria", "microorganism"]
            let discovery := "Unusual " ++ kinds.getD (o.discoveryIdx % kinds.length) ""
              ++ " strain"
            let w := updateAgent w cid (fun a =>
              add_memory ("Made exciting discovery: " ++ discovery) 9
                { a with discoveries := a.discoveries ++ [discovery] })
            match lookupAgent w cid with
            | some a2 => log_event w "scientific_discovery" "" a2.location a2.name
            | none => w
          else w
        else w
    | none => w
  else if action == "dive_for_samples" then
    match lookupAgent w cid with
    | some a =>
        if a.location == "riverside" then
          let w := updateAgent w cid (fun a =>
            add_memory "Dove and collected valuable samples" 7
              { a with samples_collected := a.samples_collected + (2 + (o.samplesDraw % 4 : Nat)) })
          match lookupAgent w cid with
          | some a2 => log_event w "field_research" "" a2.location a2.name
          | none => w
        else w
    | none => w
  else if action == "document_findings" then
    match lookupAgent w cid with
    | some a =>
        if a.discoveries.isEmpty then w
        else
          let w := updateAgent w cid
            (add_memory "Documented recent findings for publication" 8)
          log_event w "research_documentation" "" a.location a.name
    | none => w
  else w

/-- `ERSurgeon.get_possible_actions`. -/
def surgeon_get_possible_actions (a : Agent) : List String :=
  let base_actions := base_get_possible_actions a
  let surgeon_actions := ["examine_patients", "perform_surgery",
    "review_medical_charts", "consult_specialists", "train_medical_staff",
    "update_patient_records", "check_emergency_supplies",
    "practice_procedures", "attend_medical_conference",
    "research_medical_literature"]
  let surgeon_actions :=
    if a.location == "hospital" then
      surgeon_actions ++ ["rounds_with_patients", "emergency_response_drill",
        "mentor_residents", "equipment_maintenance"]
    else if a.location == "town_center" then
      surgeon_actions ++ ["provide_first_aid", "health_education_outreach",
        "emergency_response"]
    else surgeon_actions
  base_actions ++ surgeon_actions

/-- `ERSurgeon.execute_action`: the base effect, then the four surgeon
branches (examinations `randint(1,4)`, surgery with a random type and
complexity recorded in `medical_cases`, staff training, emergency
response). -/
def surgeon_execute_action (o : ActionOracle) (cid : Nat) (action : String)
    (w : World) : World :=
  let w := base_execute_action o cid action w
  if action == "examine_patients" then
    let w := updateAgent w cid (fun a =>
      add_memory "Examined patients today" 6
        { a with patients_treated := a.patients_treated + (1 + (o.patientsDraw % 4 : Nat)) })
    match lookupAgent w cid with
    | some a => log_event w "medical_care" "" a.location a.name
    | none => w
  else if action == "perform_surgery" then
    let surgery_types := ["appendectomy", "trauma_repair", "cardiac_procedure",
      "emergency_surgery"]
    let surgery_type := surgery_types.getD (o.surgeryIdx % surgery_types.length) ""
    let complexities := ["routine", "complex", "critical"]
    let complexity := complexities.getD (o.complexityIdx % complexities.length) ""
    let w := updateAgent w cid (fun a =>
      add_memory ("Successfully performed " ++ complexity ++ " " ++ surgery_type) 9
        { a with surgeries_performed := a.surgeries_performed + 1,
                 medical_cases := a.medical_cases ++ [⟨surgery_type, complexity⟩] })
    match lookupAgent w cid with
    | some a => log_event w "medical_surgery" "" a.location a.name
    | none => w
  else if action == "train_medical_staff" then
    let topics := ["emergency_protocols", "surgical_techniques",
      "patient_care", "crisis_management"]
    let topic := topics.getD (o.trainTopicIdx % topics.length) ""
    let w := updateAgent w cid
      (add_memory ("Conducted training session on " ++ topic) 7)
    match lookupAgent w cid with
    | some a => log_event w "medical_training" "" a.location a.name
    | none => w
  else if action == "emergency_response" then
    let kinds := ["cardiac_arrest", "severe_trauma", "allergic_reaction", "stroke"]
    let kind := kinds.getD (o.emergencyIdx % kinds.length) ""
    let w := updateAgent w cid
      (add_memory ("Responded to " ++ kind ++ " emergency") 8)
    match lookupAgent w cid with
    | some a => log_event w "emergency_response" "" a.location a.name
    | none => w
  else w

/-- Virtual dispatch of `get_possible_actions` on the concrete class. -/
def dispatch_possible_actions (a : Agent) : List String :=
  match a.role with
  | Role.generic => base_get_possible_actions a
  | Role.townsperson => npc_get_possible_actions a
  | Role.researcher => researcher_get_possible_actions a
  | Role.surgeon => surgeon_get_possible_actions a

/-- Virtual dispatch of `execute_action` on the concrete class. -/
def dispatch_execute_action (o : ActionOracle) (cid : Nat) (action : String)
    (w : World) : World :=
  match lookupAgent w cid with
  | some a =>
      match a.role with
      | Role.generic => base_execute_action o cid action w
      | Role.townsperson => npc_execute_action o cid action w
      | Role.researcher => researcher_execute_action o cid action w
      | Role.surgeon => surgeon_execute_action o cid action w
  | none => w

/-- `BaseCharacter.take_action` (inherited by every class): compute the
possible actions of the concrete class, select one with `choose_action`,
and execute it with the concrete class effect. -/
def take_action (o : ActionOracle) (cid : Nat) (w : World) : World :=
  match lookupAgent w cid with
  | some a =>
      let possible_actions := dispatch_possible_actions a
      if possible_actions.isEmpty then w
      else
        let action := choose_action a.personality a.energy possible_actions
          o.choice o.fallbackIdx
        dispatch_execute_action o cid action w
  | none => w

/-- `World.simulate_step`: advance the clock one hour, then every
principal character takes an action, then the first ten entries of the
`npcs` list take an action (every registered character has a
`take_action` attribute, so the `hasattr` guards always pass). -/
def simulate_step (oracles : Nat → ActionOracle) (w : World) : World :=
  let w := update_time w 1
  let w := w.ai_characters.foldl (fun w cid => take_action (oracles cid) cid w) w
  (w.npcs.take 10).foldl (fun w cid => take_action (oracles cid) cid w) w

/-- `NPCManager.simulate_npc_interactions`: over a uniform random sample
`active_group` of `min(active_npcs, len(npcs))` NPCs (the sample is an
oracle; theorems constrain it to be a valid `random.sample` outcome),
each sampled NPC takes an action with probability 0.3 (the Bool oracle
`actCoin`), then each follows its routine at the current hour with
probability 0.7 (the Bool oracle `routineCoin`). -/
def simulate_npc_interactions (oracles : Nat → ActionOracle)
    (actCoin routineCoin : Nat → Bool) (sample : List Nat) (w : World) : World :=
  let w := sample.foldl
    (fun w cid => if actCoin cid then take_action (oracles cid) cid w else w) w
  let current_hour := w.timeHours % 24
  sample.foldl
    (fun w cid => if routineCoin cid then follow_routine cid current_hour w else w) w

/-- One step of the simulation loop (`run_simulation_step` in main.py):
`world.simulate_step()` followed by
`npc_manager.simulate_npc_interactions(world, active_npcs=50)`. -/
def run_simulation_step (oracles : Nat → ActionOracle)
    (actCoin routineCoin : Nat → Bool) (sample : List Nat) (w : World) : World :=
  simulate_npc_interactions oracles actCoin routineCoin sample
    (simulate_step oracles w)

/-- `NPCManager._create_job_distribution`. -/
def job_distribution : List (String × Nat) :=
  [("shopkeeper", 15), ("fisherman", 25), ("farmer", 20), ("chef", 8),
   ("teacher", 12), ("mechanic", 10), ("librarian", 3), ("artist", 12),
   ("postal_worker", 4), ("security_guard", 6), ("cafe_owner", 5),
   ("boat_captain", 8), ("gardener", 10), ("carpenter", 12),
   ("journalist", 3), ("bartender", 8), ("baker", 6), ("musician", 8),
   ("photographer", 4), ("delivery_driver", 7), ("store_clerk", 18),
   ("tour_guide", 5), ("veterinarian", 2), ("electrician", 6),
   ("plumber", 4), ("taxi_driver", 6), ("florist", 3), ("jeweler", 2),
   ("tailor", 4), ("barber", 5), ("accountant", 3),
   ("real_estate_agent", 4), ("insurance_agent", 3), ("bank_teller", 4),
   ("mailroom_clerk", 3), ("janitor", 8), ("receptionist", 6),
   ("waitress", 12), ("cashier", 15), ("sales_associate", 10),
   ("landscaper", 8), ("construction_worker", 12), ("handyman", 8),
   ("maintenance_worker", 6), ("dock_worker", 10), ("warehouse_worker", 8)]

/-- The first-name pool of `NPCManager._create_name_pools`. -/
def first_names : List String :=
  ["Alex", "Jordan", "Taylor", "Morgan", "Casey", "Riley", "Avery", "Quinn",
   "Sage", "River", "Rowan", "Blake", "Cameron", "Dakota", "Emery", "Finley",
   "Harper", "Hayden", "Jamie", "Kai", "Lane", "Logan", "Parker", "Peyton",
   "Reese", "Skylar", "Sydney", "Adrian", "Ashton", "Bailey", "Charlie",
   "Drew", "Ellis", "Evren", "Gray", "Hunter", "Iris", "Jules", "Kennedy",
   "Lee", "Marlowe", "Nico", "Ocean", "Phoenix", "Rain", "Sam", "Tatum",
   "Val", "Winter", "Zara", "Brook", "Clay", "Eden", "Fox", "Glen",
   "Hope", "Indigo", "Jade", "Knox", "Lake", "Moon", "North", "Onyx",
   "Pine", "Quill", "Reed", "Stone", "Teal", "Uma", "Vale", "Wade",
   "Wren", "York", "Zion", "Ash", "Bay", "Coral", "Dell", "Echo",
   "Fern", "Grove", "Heath", "Isle", "Jasper", "Lark", "Mesa", "Nova",
   "Oak", "Pearl", "Sage", "Terra", "Unity", "Vega", "Wilde", "Zen",
   "Abel", "Beau", "Cove", "Dean", "Eli", "Finn", "Gage", "Hart",
   "Ivan", "Jude", "Knox", "Liam", "Max", "Noah", "Owen", "Paul",
   "Quinn", "Ryan", "Sean", "Troy", "Uma", "Vince", "Will", "Xander",
   "Yael", "Zoe", "Aria", "Beth", "Cora", "Dana", "Eva", "Faith",
   "Grace", "Hana", "Ivy", "Joy", "Kate", "Luna", "Maya", "Nora",
   "Olive", "Piper", "Rose", "Sara", "Tara", "Uma", "Vera", "Willow"]

/-- The last-name pool of `NPCManager._create_name_pools`. -/
def last_names : List String :=
  ["Rivers", "Brooks", "Waters", "Banks", "Fisher", "Stone", "Reed",
   "Field", "Grove", "Hill", "Dale", "Vale", "Creek", "Shore", "Bay",
   "Harbor", "Dock", "Bridge", "Ford", "Mill", "Wells", "Springs",
   "Falls", "Rapids", "Current", "Stream", "Flow", "Tide", "Wave",
   "Marsh", "Pond", "Lake", "Ocean", "Sea", "Coast", "Beach", "Cliff",
   "Rock", "Sand", "Pearl", "Shell", "Coral", "Marina", "Port",
   "Anchor", "Sail", "Boat", "Ship", "Float", "Drift", "Wade",
   "Swim", "Dive", "Catch", "Net", "Hook", "Line", "Cast", "Reel",
   "Bass", "Trout", "Pike", "Carp", "Salmon", "Cod", "Sole", "Perch",
   "Willow", "Oak", "Pine", "Birch", "Maple", "Cedar", "Elm", "Ash",
   "Fern", "Moss", "Ivy", "Rose", "Lily", "Daisy", "Violet", "Iris",
   "Garden", "Bloom", "Petal", "Leaf", "Branch", "Root", "Seed",
   "Berry", "Apple", "Cherry", "Plum", "Peach", "Grape", "Orange",
   "Lemon", "Mint", "Sage", "Basil", "Thyme", "Rosemary", "Lavender",
   "Craft", "Smith", "Wright", "Wood", "Clay", "Glass", "Metal",
   "Gold", "Silver", "Copper", "Iron", "Steel", "Bronze", "Brass"]

/-- `NPCManager.generate_random_name`: a first and a last name drawn
independently (`random.choice` on each pool, the oracle being the index
pair taken modulo the pool size). -/
def generate_random_name (draw : Nat × Nat) : String :=
  first_names.getD (draw.1 % first_names.length) "" ++ " "
    ++ last_names.getD (draw.2 % last_names.length) ""

/-- The name-collision redraw loop of `NPCManager.create_npcs`
(`while name in used_names: name = generate_random_name()`): scan the
successive draws and return the first name not yet used, together with
the number of redraws (collisions) that preceded it.  `none` models the
loop still running after consuming every supplied draw: the source loop
has no retry bound and simply draws again. -/
def pickFreshName : List String → List String → Option (String × Nat)
  | [], _ => none
  | n :: rest, used =>
      if used.contains n then
        (pickFreshName rest used).map (fun p => (p.1, p.2 + 1))
      else some (n, 0)

/-- The list `jobs_to_create` before padding: each job of the quota table
repeated its quota. -/
def expandJobs (dist : List (String × Nat)) : List String :=
  dist.flatMap (fun p => List.replicate p.2 p.1)

/-- The random inputs of one `create_npcs` call. -/
structure CreateOracle where
  padDraws : List String
  shufflePerm : List String → List String
  nameDraws : Nat → List (Nat × Nat)
  gen : Nat → NPCGenOracle

/-- The creation loop of `NPCManager.create_npcs`: for each job, find a
fresh name through the redraw loop, build the NPC, append it to the
created list and register it in `npc_database`.  `none` propagates a
redraw loop that never found a fresh name (in Python that call never
returns). -/
def createLoop (o : CreateOracle) :
    List String → Nat → List String → List Agent → List (String × Agent) →
    Option (List Agent × List (String × Agent))
  | [], _, _, created, db => some (created, db)
  | job :: rest, i, used_names, created, db =>
      match pickFreshName ((o.nameDraws i).map generate_random_name) used_names with
      | none => none
      | some (name, _) =>
          let npc := npcNew name job (o.gen i)
          createLoop o rest (i + 1) (used_names ++ [name])
            (created ++ [npc]) (setAssoc db name npc)

/-- `NPCManager.create_npcs(count)` on a fresh manager (empty
`npc_database`), with the manager attribute `self.job_distribution`
passed as the explicit state parameter `dist` (its value is
`job_distribution`): expand the quota table, pad with random jobs while
the list is shorter than `count` (the `padDraws` oracle, assumed long
enough), shuffle (`shufflePerm`, constrained in theorems to permute its
input), truncate to `count`, then run the creation loop.  The result is
the pair of the created list and the final name registry. -/
def create_npcs (o : CreateOracle) (dist : List (String × Nat)) (count : Nat) :
    Option (List Agent × List (String × Agent)) :=
  let jobs_to_create := expandJobs dist
  let jobs_to_create := jobs_to_create ++ o.padDraws.take (count - jobs_to_create.length)
  let jobs_to_create := (o.shufflePerm jobs_to_create).take count
  createLoop o jobs_to_create 0 [] [] []


lemma traitList_mk (c e cf cr an so ca am hu ad : Int) :
    traitList ⟨c, e, cf, cr, an, so, ca, am, hu, ad⟩ =
      [c, e, cf, cr, an, so, ca, am, hu, ad] := rfl

/-- C5: constructing a PersonalityProfile fails with the trait-sum
validation error when the (in-range) trait values do not sum to exactly
100, fails with the trait-range validation error when any value falls
outside [0, 100], and every successfully constructed profile has ten
values each in [0, 100] summing to exactly 100. -/
theorem personality_validation (c e cf cr an so ca am hu ad : Int) :
    (∀ p, mkPersonalityTraits c e cf cr an so ca am hu ad = .ok p →
      traitsInRange (traitList p) = true ∧ (traitList p).sum = 100)
    ∧ (traitsInRange [c, e, cf, cr, an, so, ca, am, hu, ad] = true →
        [c, e, cf, cr, an, so, ca, am, hu, ad].sum ≠ 100 →
        mkPersonalityTraits c e cf cr an so ca am hu ad = .error .traitSum)
    ∧ (traitsInRange [c, e, cf, cr, an, so, ca, am, hu, ad] = false →
        mkPersonalityTraits c e cf cr an so ca am hu ad = .error .traitRange) := by
  unfold mkPersonalityTraits
  simp only [traitList_mk]
  refine ⟨?_, ?_, ?_⟩
  · intro p hp
    by_cases h1 : traitsInRange [c, e, cf, cr, an, so, ca, am, hu, ad] = true
    · rw [if_pos h1] at hp
      by_cases h2 : [c, e, cf, cr, an, so, ca, am, hu, ad].sum = 100
      · rw [if_pos h2] at hp
        cases hp
        exact ⟨by simpa [traitList_mk] using h1, by simpa [traitList_mk] using h2⟩
      · rw [if_neg h2] at hp
        cases hp
    · rw [if_neg h1] at hp
      cases hp
  · intro h1 h2
    rw [if_pos h1, if_neg h2]
  · intro h1
    rw [if_neg (by simp [h1])]

/-- Witness for C5 at concrete inputs, covering the three branches: the
all-tens profile constructs successfully, the §8 scenario of ten in-range
values summing to 99 fails with the trait-sum error, and a profile with a
value of 101 fails with the trait-range error. -/
theorem personality_validation_witness :
    (traitsInRange (traitList ⟨10, 10, 10, 10, 10, 10, 10, 10, 10, 10⟩) = true ∧
      (traitList (⟨10, 10, 10, 10, 10, 10, 10, 10, 10, 10⟩ : PersonalityTraits)).sum = 100)
    ∧ mkPersonalityTraits 9 10 10 10 10 10 10 10 10 10 = .error .traitSum
    ∧ mkPersonalityTraits 101 10 10 10 10 10 10 10 10 (-11) = .error .traitRange := by
  refine ⟨?_, ?_, ?_⟩
  · exact (personality_validation 10 10 10 10 10 10 10 10 10 10).1
      ⟨10, 10, 10, 10, 10, 10, 10, 10, 10, 10⟩ rfl
  · exact (personality_validation 9 10 10 10 10 10 10 10 10 10).2.1 (by decide) (by decide)
  · exact (personality_validation 101 10 10 10 10 10 10 10 10 (-11)).2.2 (by decide)

/-- C9: every personality produced by the sequential budget allocation of
the generator has ten values each in [0, 100] summing to exactly 100, so
profile construction from the generated values always succeeds. -/
theorem generated_personality_valid (draws : Nat → Nat) :
    traitsInRange (traitList (generate_random_personality draws)) = true
    ∧ (traitList (generate_random_personality draws)).sum = 100
    ∧ mkPersonalityTraits
        (generate_random_personality draws).curiosity
        (generate_random_personality draws).empathy
        (generate_random_personality draws).confidence
        (generate_random_personality draws).creativity
        (generate_random_personality draws).analytical
        (generate_random_personality draws).social
        (generate_random_personality draws).cautious
        (generate_random_personality draws).ambitious
        (generate_random_personality draws).humor
        (generate_random_personality draws).adaptability
      = .ok (generate_random_personality draws) := by
  obtain ⟨l, hl⟩ : ∃ l, allocate 100 [draws 0, draws 1, draws 2, draws 3,
      draws 4, draws 5, draws 6, draws 7, draws 8] = l := ⟨_, rfl⟩
  have hlen : l.length = 10 := by
    rw [← hl, allocate_length]
    rfl
  have hshape : ∃ c e cf cr an so ca am hu ad : Nat,
      l = [c, e, cf, cr, an, so, ca, am, hu, ad] := by
    rcases l with _ | ⟨v0, l⟩
    · simp at hlen
    rcases l with _ | ⟨v1, l⟩
    · simp at hlen
    rcases l with _ | ⟨v2, l⟩
    · simp at hlen
    rcases l with _ | ⟨v3, l⟩
    · simp at hlen
    rcases l with _ | ⟨v4, l⟩
    · simp at hlen
    rcases l with _ | ⟨v5, l⟩
    · simp at hlen
    rcases l with _ | ⟨v6, l⟩
    · simp at hlen
    rcases l with _ | ⟨v7, l⟩
    · simp at hlen
    rcases l with _ | ⟨v8, l⟩
    · simp at hlen
    rcases l with _ | ⟨v9, l⟩
    · simp at hlen
    rcases l with _ | ⟨v10, l⟩
    · exact ⟨v0, v1, v2, v3, v4, v5, v6, v7, v8, v9, rfl⟩
    · simp at hlen
  obtain ⟨c, e, cf, cr, an, so, ca, am, hu, ad, hlist⟩ := hshape
  rw [hlist] at hl
  have hsum := allocate_sum 100 [draws 0, draws 1, draws 2, draws 3,
    draws 4, draws 5, draws 6, draws 7, draws 8]
  have hle := allocate_le 100 [draws 0, draws 1, draws 2, draws 3,
    draws 4, draws 5, draws 6, draws 7, draws 8] (le_refl 100)
  rw [hl] at hsum hle
  have hc := hle c (by simp)
  have he := hle e (by simp)
  have hcf := hle cf (by simp)
  have hcr := hle cr (by simp)
  have han := hle an (by simp)
  have hso := hle so (by simp)
  have hca := hle ca (by simp)
  have ham := hle am (by simp)
  have hhu := hle hu (by simp)
  have had := hle ad (by simp)
  simp only [List.sum_cons, List.sum_nil] at hsum
  have hp : generate_random_personality draws =
      ⟨(c : Int), (e : Int), (cf : Int), (cr : Int), (an : Int),
       (so : Int), (ca : Int), (am : Int), (hu : Int), (ad : Int)⟩ := by
    unfold generate_random_personality
    rw [hl]
  rw [hp]
  have hrange : traitsInRange
      [(c : Int), (e : Int), (cf : Int), (cr : Int), (an : Int),
       (so : Int), (ca : Int), (am : Int), (hu : Int), (ad : Int)] = true := by
    simp only [traitsInRange, List.all_cons, List.all_nil, Bool.and_true,
      Bool.and_eq_true, decide_eq_true_eq]
    refine ⟨⟨?_, ?_⟩, ⟨?_, ?_⟩, ⟨?_, ?_⟩, ⟨?_, ?_⟩, ⟨?_, ?_⟩, ⟨?_, ?_⟩,
      ⟨?_, ?_⟩, ⟨?_, ?_⟩, ⟨?_, ?_⟩, ?_, ?_⟩ <;> omega
  have hsum2 : ([(c : Int), (e : Int), (cf : Int), (cr : Int), (an : Int),
      (so : Int), (ca : Int), (am : Int), (hu : Int), (ad : Int)]).sum = 100 := by
    simp only [List.sum_cons, List.sum_nil]
    omega
  refine ⟨by simpa [traitList_mk] using hrange,
    by simpa [traitList_mk] using hsum2, ?_⟩
  unfold mkPersonalityTraits
  simp only [traitList_mk]
  rw [hrange]
  simp [hsum2]

lemma insertDesc_length (m : MemoryEntry) (l : List MemoryEntry) :
    (insertDesc m l).length = l.length + 1 := by
  induction l with
  | nil => rfl
  | cons x xs ih =>
      unfold insertDesc
      split
      · simp [ih]
      · simp

lemma foldl_insertDesc_length (l acc : List MemoryEntry) :
    (l.foldl (fun acc m => insertDesc m acc) acc).length =
      acc.length + l.length := by
  induction l generalizing acc with
  | nil => simp
  | cons x xs ih =>
      simp only [List.foldl_cons, ih, insertDesc_length, List.length_cons]
      omega

lemma sortedByImportanceDesc_length (l : List MemoryEntry) :
    (sortedByImportanceDesc l).length = l.length := by
  unfold sortedByImportanceDesc
  simpa using foldl_insertDesc_length l []

lemma add_memory_memories (content : String) (importance : Int) (a : Agent) :
    (add_memory content importance a).memories =
      if 50 < (a.memories ++ [(⟨content, importance⟩ : MemoryEntry)]).length then
        (sortedByImportanceDesc (a.memories ++ [(⟨content, importance⟩ : MemoryEntry)])).take 50
      else a.memories ++ [(⟨content, importance⟩ : MemoryEntry)] := by
  simp only [add_memory]
  split
  · rfl
  · rfl

lemma add_memory_length (content : String) (importance : Int) (a : Agent)
    (h : a.memories.length ≤ 50) :
    ((add_memory content importance a).memories).length ≤ 50 := by
  rw [add_memory_memories]
  split
  · simp [List.length_take, sortedByImportanceDesc_length]
  · next h2 =>
      simp only [List.length_append, List.length_cons, List.length_nil] at h2 ⊢
      omega

lemma insertDesc_of_forall_lt (x : MemoryEntry) (l : List MemoryEntry)
    (h : ∀ y ∈ l, y.importance < x.importance) : insertDesc x l = x :: l := by
  cases l with
  | nil => rfl
  | cons y ys =>
      unfold insertDesc
      rw [if_neg]
      have := h y (by simp)
      omega

lemma sortedByImportanceDesc_of_pairwise (l : List MemoryEntry)
    (h : l.Pairwise (fun x y => x.importance < y.importance)) :
    sortedByImportanceDesc l = l.reverse := by
  induction l using List.reverseRecOn with
  | nil => rfl
  | append_singleton xs x ih =>
      have hsplit := List.pairwise_append.mp h
      have hxs := hsplit.1
      have hlt : ∀ y ∈ xs.reverse, y.importance < x.importance := by
        intro y hy
        exact hsplit.2.2 y (List.mem_reverse.mp hy) x (by simp)
      unfold sortedByImportanceDesc at ih ⊢
      rw [List.foldl_append]
      simp only [List.foldl_cons, List.foldl_nil]
      rw [ih hxs, insertDesc_of_forall_lt x xs.reverse hlt, List.reverse_append]
      rfl

lemma reverse_take_of_length_51 {α : Type} (l : List α) (h : l.length = 51) :
    l.reverse.take 50 = (l.drop 1).reverse := by
  cases l with
  | nil => simp at h
  | cons y t =>
      simp only [List.reverse_cons, List.drop_succ_cons, List.drop_zero]
      have ht : t.reverse.length = 50 := by
        simp at h ⊢
        omega
      rw [List.take_left' ht]

lemma memFold_no_overflow (apps : List (String × Int)) (a : Agent)
    (h : a.memories.length + apps.length ≤ 50) :
    (apps.foldl (fun acc p => add_memory p.1 p.2 acc) a).memories =
      a.memories ++ apps.map (fun p => (⟨p.1, p.2⟩ : MemoryEntry)) := by
  induction apps generalizing a with
  | nil => simp
  | cons p t ih =>
      simp only [List.foldl_cons]
      have hstep : (add_memory p.1 p.2 a).memories =
          a.memories ++ [⟨p.1, p.2⟩] := by
        rw [add_memory_memories, if_neg]
        simp only [List.length_append, List.length_cons, List.length_nil]
        simp only [List.length_cons] at h
        omega
      rw [ih (add_memory p.1 p.2 a) (by rw [hstep]; simp at h ⊢; omega), hstep]
      simp

/-- C4: after any sequence of appends from a log within capacity the
memory log length never exceeds 50; and after 51 appends with strictly
increasing importance values starting from an empty log, the final log is
exactly the appended entries minus the first (lowest-importance) one, in
importance-descending order — that is, precisely the 50 highest-importance
entries. -/
theorem memory_log_bounded :
    (∀ (a : Agent) (apps : List (String × Int)),
        a.memories.length ≤ 50 →
        ((apps.foldl (fun acc p => add_memory p.1 p.2 acc) a).memories).length ≤ 50)
    ∧ (∀ (a : Agent) (apps : List (String × Int)),
        a.memories = [] → apps.length = 51 →
        (apps.map Prod.snd).Pairwise (· < ·) →
        (apps.foldl (fun acc p => add_memory p.1 p.2 acc) a).memories
          = ((apps.map (fun p => (⟨p.1, p.2⟩ : MemoryEntry))).drop 1).reverse) := by
  constructor
  · intro a apps
    induction apps generalizing a with
    | nil => intro h; simpa using h
    | cons p t ih =>
        intro h
        simp only [List.foldl_cons]
        exact ih _ (add_memory_length p.1 p.2 a h)
  · intro a apps hmem hlen hpair
    rcases List.eq_nil_or_concat apps with rfl | ⟨xs, x, rfl⟩
    · simp at hlen
    have hxs : xs.length = 50 := by
      simp at hlen
      omega
    rw [List.concat_eq_append, List.foldl_append]
    have h1 : (xs.foldl (fun acc p => add_memory p.1 p.2 acc) a).memories =
        xs.map (fun p => (⟨p.1, p.2⟩ : MemoryEntry)) := by
      rw [memFold_no_overflow xs a (by rw [hmem]; simpa using le_of_eq hxs)]
      rw [hmem]
      rfl
    simp only [List.foldl_cons, List.foldl_nil]
    rw [add_memory_memories, h1]
    rw [if_pos (by simp [hxs])]
    have hmap : xs.map (fun p => (⟨p.1, p.2⟩ : MemoryEntry)) ++ [(⟨x.1, x.2⟩ : MemoryEntry)] =
        (xs ++ [x]).map (fun p => (⟨p.1, p.2⟩ : MemoryEntry)) := by
      simp
    rw [hmap]
    have hpair2 : ((xs ++ [x]).map (fun p => (⟨p.1, p.2⟩ : MemoryEntry))).Pairwise
        (fun u v => u.importance < v.importance) := by
      rw [List.pairwise_map]
      have h3 := (List.pairwise_map (f := (Prod.snd : String × Int → Int))).mp hpair
      simp only [List.concat_eq_append] at h3
      exact h3
    rw [sortedByImportanceDesc_of_pairwise _ hpair2]
    rw [reverse_take_of_length_51 _ (by simp [hxs])]

/-- Witness for C4: a fresh character keeps its log within capacity after
one append, and 51 appends of importance 0..50 retain the entries of
importance 1..50 in descending order. -/
theorem memory_log_bounded_witness :
    ((mkBaseCharacter "A" "chef" ⟨10, 10, 10, 10, 10, 10, 10, 10, 10, 10⟩ 30).memories.length ≤ 50 ∧
      ((([("m", (5 : Int))]).foldl (fun acc p => add_memory p.1 p.2 acc)
        (mkBaseCharacter "A" "chef" ⟨10, 10, 10, 10, 10, 10, 10, 10, 10, 10⟩ 30)).memories).length ≤ 50)
    ∧ (((List.range 51).map (fun i => ("m", (i : Int)))).foldl
          (fun acc p => add_memory p.1 p.2 acc)
          (mkBaseCharacter "A" "chef" ⟨10, 10, 10, 10, 10, 10, 10, 10, 10, 10⟩ 30)).memories
        = ((((List.range 51).map (fun i => (("m", (i : Int)) : String × Int))).map
            (fun p => (⟨p.1, p.2⟩ : MemoryEntry))).drop 1).reverse := by
  refine ⟨⟨by decide, ?_⟩, ?_⟩
  · exact memory_log_bounded.1 _ _ (by decide)
  · exact memory_log_bounded.2 _ _ (by decide) (by decide) (by decide)

lemma find?_update_self (l : List (Nat × Agent)) (cid : Nat) (f : Agent → Agent) :
    ((l.map (fun p => if p.1 == cid then (p.1, f p.2) else p)).find?
        (fun p => p.1 == cid))
      = (l.find? (fun p => p.1 == cid)).map (fun p => (p.1, f p.2)) := by
  induction l with
  | nil => rfl
  | cons p t ih =>
      by_cases hp : (p.1 == cid) = true
      · simp only [List.map_cons, if_pos hp]
        rw [List.find?_cons, List.find?_cons]
        simp [hp]
      · simp only [List.map_cons, if_neg hp]
        rw [List.find?_cons, List.find?_cons]
        simp only [hp]
        exact ih

lemma find?_update_ne (l : List (Nat × Agent)) (cid i : Nat) (f : Agent → Agent)
    (h : i ≠ cid) :
    ((l.map (fun p => if p.1 == cid then (p.1, f p.2) else p)).find?
        (fun p => p.1 == i))
      = l.find? (fun p => p.1 == i) := by
  induction l with
  | nil => rfl
  | cons p t ih =>
      by_cases hc : (p.1 == cid) = true
      · have hi : (p.1 == i) = false := by
          have := beq_iff_eq.mp hc
          simp [this]
          omega
        simp only [List.map_cons, if_pos hc]
        rw [List.find?_cons, List.find?_cons]
        simp only [hi]
        exact ih
      · simp only [List.map_cons, if_neg hc]
        rw [List.find?_cons, List.find?_cons]
        by_cases hi : (p.1 == i) = true
        · simp [hi]
        · simp only [hi]
          exact ih

lemma lookupAgent_updateAgent_self (w : World) (cid : Nat) (f : Agent → Agent) :
    lookupAgent (updateAgent w cid f) cid = (lookupAgent w cid).map f := by
  unfold lookupAgent updateAgent
  simp only [find?_update_self, Option.map_map]
  rfl

lemma lookupAgent_updateAgent_ne (w : World) (cid i : Nat) (f : Agent → Agent)
    (h : i ≠ cid) :
    lookupAgent (updateAgent w cid f) i = lookupAgent w i := by
  unfold lookupAgent updateAgent
  simp only [find?_update_ne _ _ _ _ h]

lemma lookupAgent_mapOccupants (w : World) (f : String → List Nat → List Nat)
    (i : Nat) : lookupAgent (mapOccupants w f) i = lookupAgent w i := rfl

lemma lookupAgent_log_event (w : World) (a b c d : String) (i : Nat) :
    lookupAgent (log_event w a b c d) i = lookupAgent w i := rfl

lemma add_memory_energy (content : String) (importance : Int) (a : Agent) :
    (add_memory content importance a).energy = a.energy := by
  simp only [add_memory]
  split
  · rfl
  · rfl

lemma set_activity_energy (s : String) (a : Agent) :
    (set_activity s a).energy = a.energy := rfl

lemma add_relationship_energy (n t : String) (s : Int) (a : Agent) :
    (add_relationship n t s a).energy = a.energy := rfl

/-- The energy of the agent behind an id. -/
def agentEnergy (w : World) (cid : Nat) : Option Int :=
  (lookupAgent w cid).map Agent.energy

lemma agentEnergy_updateAgent_self (w : World) (cid : Nat) (f : Agent → Agent) :
    agentEnergy (updateAgent w cid f) cid =
      (lookupAgent w cid).map (fun a => (f a).energy) := by
  unfold agentEnergy
  rw [lookupAgent_updateAgent_self, Option.map_map]
  rfl

lemma move_character_agentEnergy (w : World) (cid : Nat) (key : String) (i : Nat) :
    agentEnergy (move_character w cid key) i = agentEnergy w i := by
  unfold move_character
  split
  · unfold agentEnergy
    rw [lookupAgent_log_event]
    by_cases hi : i = cid
    · subst hi
      rw [lookupAgent_updateAgent_self, lookupAgent_mapOccupants,
        lookupAgent_mapOccupants, Option.map_map]
      rfl
    · rw [lookupAgent_updateAgent_ne _ _ _ _ hi, lookupAgent_mapOccupants,
        lookupAgent_mapOccupants]
  · rfl

lemma agentEnergy_updateAgent_comp (w : World) (cid : Nat) (f : Agent → Agent)
    (g : Int → Int) (h : ∀ a, (f a).energy = g a.energy) :
    agentEnergy (updateAgent w cid f) cid = (agentEnergy w cid).map g := by
  unfold agentEnergy
  rw [lookupAgent_updateAgent_self, Option.map_map]
  cases lookupAgent w cid with
  | none => rfl
  | some a => simp [h]

lemma base_rest_effect_energy (cid : Nat) (w : World) :
    agentEnergy (base_rest_effect cid w) cid =
      (agentEnergy w cid).map (fun e => min 100 (e + 20)) := by
  unfold base_rest_effect
  exact agentEnergy_updateAgent_comp w cid _ _ (fun a => add_memory_energy _ _ _)

lemma base_explore_effect_energy (o : ActionOracle) (cid : Nat) (w : World) :
    agentEnergy (base_explore_effect o cid w) cid = agentEnergy w cid := by
  unfold base_explore_effect
  cases hw : lookupAgent w cid with
  | none => rfl
  | some a =>
      rw [agentEnergy_updateAgent_comp _ _ _ id (fun a => add_memory_energy _ _ _)]
      rw [move_character_agentEnergy]
      simp

lemma base_socialize_effect_energy (o : ActionOracle) (cid : Nat) (w : World) :
    agentEnergy (base_socialize_effect o cid w) cid = agentEnergy w cid := by
  simp only [base_socialize_effect]
  split
  · split
    · split
      · rfl
      · rw [agentEnergy_updateAgent_comp _ _ _ id]
        · rw [agentEnergy_updateAgent_comp _ _ _ id]
          · simp
          · exact fun a => add_memory_energy _ _ _
        · intro a
          split
          · rfl
          · exact add_relationship_energy _ _ _ _
    · rfl
  · rfl

lemma base_execute_action_energy (o : ActionOracle) (cid : Nat) (action : String)
    (w : World) :
    agentEnergy (base_execute_action o cid action w) cid =
      (agentEnergy w cid).map
        (fun e => max 0 ((if action == "rest" then min 100 (e + 20) else e) - 5)) := by
  simp only [base_execute_action]
  by_cases hrest : (action == "rest") = true
  · rw [if_pos hrest]
    rw [agentEnergy_updateAgent_comp _ _ _ (fun e => max 0 (e - 5)) (fun a => rfl)]
    rw [base_rest_effect_energy]
    rw [agentEnergy_updateAgent_comp _ _ (set_activity action) id (fun a => rfl)]
    cases agentEnergy w cid with
    | none => rfl
    | some e => simp [hrest]
  · rw [if_neg hrest]
    by_cases hexp : (action == "explore") = true
    · rw [if_pos hexp]
      rw [agentEnergy_updateAgent_comp _ _ _ (fun e => max 0 (e - 5)) (fun a => rfl)]
      rw [base_explore_effect_energy]
      rw [agentEnergy_updateAgent_comp _ _ (set_activity action) id (fun a => rfl)]
      cases agentEnergy w cid with
      | none => rfl
      | some e => simp [hrest]
    · rw [if_neg hexp]
      by_cases hsoc : (action == "socialize") = true
      · rw [if_pos hsoc]
        rw [agentEnergy_updateAgent_comp _ _ _ (fun e => max 0 (e - 5)) (fun a => rfl)]
        rw [base_socialize_effect_energy]
        rw [agentEnergy_updateAgent_comp _ _ (set_activity action) id (fun a => rfl)]
        cases agentEnergy w cid with
        | none => rfl
        | some e => simp [hrest]
      · rw [if_neg hsoc]
        rw [agentEnergy_updateAgent_comp _ _ _ (fun e => max 0 (e - 5)) (fun a => rfl)]
        rw [agentEnergy_updateAgent_comp _ _ (set_activity action) id (fun a => rfl)]
        cases agentEnergy w cid with
        | none => rfl
        | some e => simp [hrest]

/-- Bool test that the energy of the agent behind an id lies in [0, 100]
(vacuously true for an unregistered id). -/
def energyInRange (w : World) (cid : Nat) : Bool :=
  match agentEnergy w cid with
  | some e => decide (0 ≤ e) && decide (e ≤ 100)
  | none => true

lemma energyInRange_step (o : ActionOracle) (cid : Nat) (action : String)
    (w : World) (h : energyInRange w cid = true) :
    energyInRange (base_execute_action o cid action w) cid = true := by
  unfold energyInRange at h ⊢
  rw [base_execute_action_energy]
  cases he : agentEnergy w cid with
  | none => rfl
  | some e =>
      rw [he] at h
      simp only [Option.map, Bool.and_eq_true, decide_eq_true_eq] at h ⊢
      constructor
      · split <;> omega
      · split <;> omega

/-- C10: `BaseCharacter.execute_action` maps the agent energy through
`max 0 ((if rest then min 100 (e + 20) else e) - 5)` — the rest action
adds 20 capped at 100 and every executed action unconditionally subtracts
5 floored at 0 — and therefore energy starting in [0, 100] stays in
[0, 100] after any sequence of executed actions. -/
theorem energy_stays_bounded :
    (∀ (o : ActionOracle) (cid : Nat) (action : String) (w : World),
        agentEnergy (base_execute_action o cid action w) cid =
          (agentEnergy w cid).map
            (fun e => max 0 ((if action == "rest" then min 100 (e + 20) else e) - 5)))
    ∧ (∀ (w : World) (cid : Nat),
        energyInRange w cid = true →
        ∀ acts : List (String × ActionOracle),
          energyInRange
            (acts.foldl (fun w p => base_execute_action p.2 cid p.1 w) w) cid = true) := by
  constructor
  · exact fun o cid action w => base_execute_action_energy o cid action w
  · intro w cid h acts
    induction acts generalizing w with
    | nil => simpa using h
    | cons p t ih =>
        simp only [List.foldl_cons]
        exact ih _ (energyInRange_step p.2 cid p.1 w h)

/-- Witness for C10: a freshly added character (energy 100) stays within
[0, 100] across a rest followed by an unknown action. -/
theorem energy_stays_bounded_witness :
    energyInRange
      (add_character initialWorld 0
        (mkBaseCharacter "A" "chef" ⟨10, 10, 10, 10, 10, 10, 10, 10, 10, 10⟩ 30)) 0 = true
    ∧ energyInRange
        (([("rest", (⟨0, 0, 0, 0, 0, 0, 0, 0, 0, 0, 0, 0, 0, 0, 0, 0⟩ : ActionOracle)),
           ("idle", (⟨0, 0, 0, 0, 0, 0, 0, 0, 0, 0, 0, 0, 0, 0, 0, 0⟩ : ActionOracle))].foldl
          (fun w p => base_execute_action p.2 0 p.1 w)
          (add_character initialWorld 0
            (mkBaseCharacter "A" "chef" ⟨10, 10, 10, 10, 10, 10, 10, 10, 10, 10⟩ 30)))) 0 = true := by
  refine ⟨by decide, ?_⟩
  exact energy_stays_bounded.2 _ 0 (by decide) _

/-- The category bonus of the action-selection weight table as the
(amended) claim describes it: investigative actions add curiosity*0.02 +
analytical*0.02, social actions add social*0.02 + empathy*0.02, explore
adds curiosity*0.02 + adaptability*0.02, rest adds (100 - energy)*0.01,
all other actions add nothing. -/
def specCategoryBonus (p : PersonalityTraits) (energy : Int) (action : String) : ℚ :=
  if action == "research" || action == "analyze_data" || action == "conduct_research" then
    (p.curiosity : ℚ) * (2 / 100) + (p.analytical : ℚ) * (2 / 100)
  else if action == "socialize" || action == "visit_patients" then
    (p.social : ℚ) * (2 / 100) + (p.empathy : ℚ) * (2 / 100)
  else if action == "explore" then
    (p.curiosity : ℚ) * (2 / 100) + (p.adaptability : ℚ) * (2 / 100)
  else if action == "rest" then
    ((100 : ℚ) - (energy : Int)) * (1 / 100)
  else 0

/-- The per-action weight the claim prescribes: 1 plus the category
bonus, clamped from below by the floor 0.1. -/
def specWeight (p : PersonalityTraits) (energy : Int) (action : String) : ℚ :=
  max (1 + specCategoryBonus p energy action) (1 / 10)

/-- The selection rule the claim prescribes: the first action whose
cumulative weight meets or exceeds the draw (expressed by peeling the
draw down by each weight in iteration order). -/
def specFirstReaching (choice : ℚ) : List (String × ℚ) → Option String
  | [] => none
  | (a, w) :: rest =>
      if choice ≤ w then some a else specFirstReaching (choice - w) rest

/-- The action-selection algorithm as the amended claim describes it:
weight table (with the 0.01 rest coefficient), clamping, first action
reaching the draw, uniform fallback. -/
def specChooseAction (p : PersonalityTraits) (energy : Int)
    (possible_actions : List String) (choice : ℚ) (fallbackIdx : Nat) : String :=
  let weights := possible_actions.eraseDups.map
    (fun a => (a, specWeight p energy a))
  match specFirstReaching choice weights with
  | some a => a
  | none => possible_actions.getD (fallbackIdx % possible_actions.length) ""

lemma actionWeight_eq_specWeight (p : PersonalityTraits) (energy : Int)
    (action : String) : actionWeight p energy action = specWeight p energy action := by
  simp only [actionWeight, specWeight, specCategoryBonus]
  split_ifs <;> (first | rfl | (congr 1; ring))

lemma walkWeights_eq_specFirstReaching (choice : ℚ) (current : ℚ)
    (ws : List (String × ℚ)) :
    walkWeights choice current ws = specFirstReaching (choice - current) ws := by
  induction ws generalizing current with
  | nil => rfl
  | cons hd rest ih =>
      obtain ⟨a, w⟩ := hd
      simp only [walkWeights, specFirstReaching]
      by_cases h : choice ≤ current + w
      · rw [if_pos h, if_pos (by linarith)]
      · rw [if_neg h, if_neg (by intro hc; exact h (by linarith)), ih]
        congr 1
        ring

/-- The rest-action weight the claim text prescribes, with its 0.02
coefficient (modelled from the claim words, for comparison with the
source). -/
def claimRestWeight (energy : Int) : ℚ :=
  max (1 + ((100 : ℚ) - (energy : Int)) * (2 / 100)) (1 / 10)

/-- Counterexample to C6 as stated: at energy 0 the source assigns the
rest action weight 1 + 100*0.01 = 2, not the claimed 1 + 100*0.02 = 3,
and the difference is observable in the selection itself: with candidates
[rest, socialize] (all traits 0) and draw 5/2 the source picks
"socialize" (cumulative weights 2, 3), while the claimed weights
(cumulative 3, 4) would pick "rest". -/
theorem choose_action_rest_weight_counterexample :
    actionWeight ⟨0, 0, 0, 0, 0, 0, 0, 0, 0, 0⟩ 0 "rest" = 2
    ∧ claimRestWeight 0 = 3
    ∧ actionWeight ⟨0, 0, 0, 0, 0, 0, 0, 0, 0, 0⟩ 0 "rest" ≠ claimRestWeight 0
    ∧ choose_action ⟨0, 0, 0, 0, 0, 0, 0, 0, 0, 0⟩ 0 ["rest", "socialize"]
        (5 / 2) 0 = "socialize" := by
  have h1 : actionWeight ⟨0, 0, 0, 0, 0, 0, 0, 0, 0, 0⟩ 0 "rest" = 2 := by
    norm_num +decide [actionWeight, max_def]
  have h2 : claimRestWeight 0 = 3 := by
    norm_num +decide [claimRestWeight, max_def]
  refine ⟨h1, h2, by rw [h1, h2]; norm_num, ?_⟩
  have hd : (["rest", "socialize"] : List String).eraseDups = ["rest", "socialize"] := by
    rfl
  have hw : traitWeights ⟨0, 0, 0, 0, 0, 0, 0, 0, 0, 0⟩ 0 ["rest", "socialize"] =
      [("rest", 2), ("socialize", 1)] := by
    simp only [traitWeights, hd, List.map_cons, List.map_nil, h1]
    norm_num +decide [actionWeight, max_def]
  have hwalk : walkWeights (5 / 2) 0 [("rest", (2 : ℚ)), ("socialize", 1)] =
      some "socialize" := by
    simp only [walkWeights]
    norm_num
  simp only [choose_action, hw, hwalk]

/-- C6 (amended: the `rest` action adds (100 - energy)*0.01, not 0.02):
`BaseCharacter.choose_action` computes exactly the claimed algorithm —
per-action weights starting at 1 with the fixed category→trait additions,
clamped at the floor 0.1, walked cumulatively in iteration order
returning the first action whose cumulative weight meets or exceeds the
draw, with a uniform fallback among the candidates if the walk selects
nothing. -/
theorem choose_action_algorithm (p : PersonalityTraits) (energy : Int)
    (possible_actions : List String) (choice : ℚ) (fallbackIdx : Nat) :
    choose_action p energy possible_actions choice fallbackIdx =
      specChooseAction p energy possible_actions choice fallbackIdx := by
  simp only [choose_action, specChooseAction, traitWeights]
  have hmap : possible_actions.eraseDups.map (fun a => (a, actionWeight p energy a)) =
      possible_actions.eraseDups.map (fun a => (a, specWeight p energy a)) := by
    apply List.map_congr_left
    intro a _
    rw [actionWeight_eq_specWeight]
  rw [hmap, walkWeights_eq_specFirstReaching]
  simp

lemma find?_keyed_map {α β : Type} (l : List (α × β)) (g : α × β → α × β)
    (pred : α × β → Bool) (hg : ∀ p, pred (g p) = pred p) :
    (l.map g).find? pred = (l.find? pred).map g := by
  induction l with
  | nil => rfl
  | cons p t ih =>
      by_cases hp : pred p = true
      · rw [List.map_cons, List.find?_cons, List.find?_cons]
        simp [hg, hp]
      · rw [List.map_cons, List.find?_cons, List.find?_cons]
        have : pred (g p) = false := by
          rw [hg]
          simpa using hp
        simp only [this, Bool.false_eq_true]
        simpa [hp] using ih

lemma locations_updateAgent (w : World) (cid : Nat) (f : Agent → Agent) :
    (updateAgent w cid f).locations = w.locations := rfl

lemma locations_log_event (w : World) (a b c d : String) :
    (log_event w a b c d).locations = w.locations := rfl

lemma getOccupants_updateAgent (w : World) (cid : Nat) (f : Agent → Agent)
    (k : String) : getOccupants (updateAgent w cid f) k = getOccupants w k := rfl

lemma getOccupants_log_event (w : World) (a b c d : String) (k : String) :
    getOccupants (log_event w a b c d) k = getOccupants w k := rfl

lemma events_updateAgent (w : World) (cid : Nat) (f : Agent → Agent) :
    (updateAgent w cid f).events = w.events := rfl

lemma events_mapOccupants (w : World) (f : String → List Nat → List Nat) :
    (mapOccupants w f).events = w.events := rfl

/-- The body of `move_character` when the location key is declared. -/
lemma move_character_pos (w : World) (cid : Nat) (key : String)
    (h : hasLocation w key = true) :
    move_character w cid key =
      log_event (updateAgent (mapOccupants (mapOccupants w
          (fun _ occ => occ.erase cid))
          (fun k occ => if k == key then occ ++ [cid] else occ)) cid
          (fun a => { a with location := key }))
        "character_movement" "" key
        (agentName (updateAgent (mapOccupants (mapOccupants w
          (fun _ occ => occ.erase cid))
          (fun k occ => if k == key then occ ++ [cid] else occ)) cid
          (fun a => { a with location := key })) cid) := by
  simp only [move_character, h]
  rfl

lemma getOccupants_mapOccupants (w : World) (f : String → List Nat → List Nat)
    (k : String) :
    getOccupants (mapOccupants w f) k =
      match w.locations.find? (fun p => p.1 == k) with
      | some p => f p.1 p.2
      | none => [] := by
  unfold getOccupants mapOccupants
  simp only []
  rw [find?_keyed_map w.locations (fun p => (p.1, f p.1 p.2))
    (fun p => p.1 == k) (fun p => rfl)]
  cases w.locations.find? (fun p => p.1 == k) with
  | none => rfl
  | some p => rfl

lemma getOccupants_move_pos (w : World) (cid : Nat) (key : String) (k : String)
    (h : hasLocation w key = true) :
    getOccupants (move_character w cid key) k =
      match w.locations.find? (fun p => p.1 == k) with
      | some p => if p.1 == key then p.2.erase cid ++ [cid] else p.2.erase cid
      | none => [] := by
  rw [move_character_pos w cid key h, getOccupants_log_event,
    getOccupants_updateAgent, getOccupants_mapOccupants]
  simp only [mapOccupants]
  rw [find?_keyed_map w.locations (fun p => (p.1, p.2.erase cid))
    (fun p => p.1 == k) (fun p => rfl)]
  cases hf : w.locations.find? (fun p => p.1 == k) with
  | none => rfl
  | some p => rfl

lemma count_le_one_erase {l : List Nat} {a : Nat} (h : l.count a ≤ 1) :
    a ∉ l.erase a := by
  intro hmem
  have h1 : (l.erase a).count a = l.count a - 1 := List.count_erase_self a l
  have h2 : 0 < (l.erase a).count a := List.count_pos_iff.mpr hmem
  omega

lemma find?_key_eq {l : List (String × List Nat)} {k : String}
    {p : String × List Nat} (h : l.find? (fun p => p.1 == k) = some p) :
    p.1 = k := by
  have h2 := List.find?_some h
  exact beq_iff_eq.mp h2

/-- The location keys whose occupant list contains the agent. -/
def occupantKeysOf (w : World) (cid : Nat) : List String :=
  (w.locations.filter (fun p => decide (cid ∈ p.2))).map Prod.fst

/-- Bool form of the claimed bidirectional occupancy invariant for one
agent: it appears in the occupant list of exactly one location, whose key
equals the agent own location field (vacuous for an unregistered id). -/
def agentConsistent (w : World) (cid : Nat) : Bool :=
  match lookupAgent w cid with
  | some a => occupantKeysOf w cid == [a.location]
  | none => true

/-- Bool test that no occupant list holds the agent more than once (true
in every state reachable by the world operations). -/
def occupantCountOK (w : World) (cid : Nat) : Bool :=
  w.locations.all (fun p => decide (p.2.count cid ≤ 1))

/-- C2: `World.move_character` with an undeclared location key is a
complete no-op on the world (occupants, agent fields and the event log
all unchanged); with a declared key it removes the agent from every
occupant list that contains it (given the reachable-state property that
no occupant list holds a duplicate reference), appends it to the target
list, points the agent location field at the key, and appends exactly one
`character_movement` event. -/
theorem move_character_semantics :
    (∀ (w : World) (cid : Nat) (key : String),
        hasLocation w key = false → move_character w cid key = w)
    ∧ (∀ (w : World) (cid : Nat) (key : String) (a : Agent),
        hasLocation w key = true →
        lookupAgent w cid = some a →
        occupantCountOK w cid = true →
        (∀ k, k ≠ key → cid ∉ getOccupants (move_character w cid key) k)
        ∧ cid ∈ getOccupants (move_character w cid key) key
        ∧ lookupAgent (move_character w cid key) cid =
            some { a with location := key }
        ∧ (move_character w cid key).events =
            w.events ++ [⟨"character_movement", "", key, a.name⟩]) := by
  constructor
  · intro w cid key h
    simp only [move_character, h]
    simp
  · intro w cid key a hkey hcid hcount
    refine ⟨?_, ?_, ?_, ?_⟩
    · intro k hk
      rw [getOccupants_move_pos w cid key k hkey]
      cases hf : w.locations.find? (fun p => p.1 == k) with
      | none => simp
      | some p =>
          have hp1 : p.1 = k := find?_key_eq hf
          have hne : (p.1 == key) = false := by
            rw [hp1]
            simpa using hk
          simp only [hne, Bool.false_eq_true, if_false]
          have hmem := List.mem_of_find?_eq_some hf
          have hc : p.2.count cid ≤ 1 := by
            have h3 := List.all_eq_true.mp hcount _ hmem
            simpa using h3
          exact count_le_one_erase hc
    · rw [getOccupants_move_pos w cid key key hkey]
      have hex : ∃ p ∈ w.locations, (p.1 == key) = true := by
        unfold hasLocation at hkey
        simpa using List.any_eq_true.mp hkey
      cases hf : w.locations.find? (fun p => p.1 == key) with
      | none =>
          obtain ⟨p, hp, hpk⟩ := hex
          have h4 := List.find?_eq_none.mp hf p hp
          rw [hpk] at h4
          cases h4 rfl
      | some p =>
          have hpk : (p.1 == key) = true := by
            have h5 := List.find?_some hf
            simpa using h5
          simp [hpk]
    · rw [move_character_pos w cid key hkey, lookupAgent_log_event,
        lookupAgent_updateAgent_self, lookupAgent_mapOccupants,
        lookupAgent_mapOccupants, hcid]
      rfl
    · rw [move_character_pos w cid key hkey]
      have hname : agentName (updateAgent (mapOccupants (mapOccupants w
          (fun _ occ => occ.erase cid))
          (fun k occ => if k == key then occ ++ [cid] else occ)) cid
          (fun a => { a with location := key })) cid = a.name := by
        unfold agentName
        rw [lookupAgent_updateAgent_self, lookupAgent_mapOccupants,
          lookupAgent_mapOccupants, hcid]
        rfl
      rw [hname]
      unfold log_event
      simp only [events_updateAgent, events_mapOccupants]

/-- Witness for C2 on a concrete world: an agent added to the fresh world
and first moved to the hospital, then moved to riverside, satisfies the
occupant-list conclusions; and a move to an undeclared key is the
identity. -/
theorem move_character_semantics_witness :
    (move_character (add_character initialWorld 0
        (mkBaseCharacter "A" "chef" ⟨10, 10, 10, 10, 10, 10, 10, 10, 10, 10⟩ 30))
        0 "atlantis"
      = add_character initialWorld 0
        (mkBaseCharacter "A" "chef" ⟨10, 10, 10, 10, 10, 10, 10, 10, 10, 10⟩ 30))
    ∧ (0 ∈ getOccupants (move_character (move_character (add_character initialWorld 0
        (mkBaseCharacter "A" "chef" ⟨10, 10, 10, 10, 10, 10, 10, 10, 10, 10⟩ 30))
        0 "hospital") 0 "riverside") "riverside"
      ∧ (0 ∉ getOccupants (move_character (move_character (add_character initialWorld 0
          (mkBaseCharacter "A" "chef" ⟨10, 10, 10, 10, 10, 10, 10, 10, 10, 10⟩ 30))
          0 "hospital") 0 "riverside") "hospital")) := by
  refine ⟨?_, ?_, ?_⟩
  · exact move_character_semantics.1 _ 0 "atlantis" (by decide)
  · exact (move_character_semantics.2 _ 0 "riverside"
      { mkBaseCharacter "A" "chef" ⟨10, 10, 10, 10, 10, 10, 10, 10, 10, 10⟩ 30
          with location := "hospital" }
      (by decide) (by decide) (by decide)).2.1
  · exact (move_character_semantics.2 _ 0 "riverside"
      { mkBaseCharacter "A" "chef" ⟨10, 10, 10, 10, 10, 10, 10, 10, 10, 10⟩ 30
          with location := "hospital" }
      (by decide) (by decide) (by decide)).1 "hospital" (by decide)

lemma filter_map_comm {α β : Type} (l : List α) (g : α → β) (p : β → Bool) :
    (l.map g).filter p = (l.filter (fun a => p (g a))).map g := by
  induction l with
  | nil => rfl
  | cons a t ih =>
      by_cases h : p (g a) = true
      · simp [h, ih]
      · simp [h, ih]

lemma filter_key_not_mem (l : List (String × List Nat)) (key : String)
    (h : key ∉ l.map Prod.fst) :
    l.filter (fun p => p.1 == key) = [] := by
  induction l with
  | nil => rfl
  | cons p t ih =>
      simp only [List.map_cons, List.mem_cons] at h
      push_neg at h
      have hp : (p.1 == key) = false := by
        simpa using fun hc => h.1 hc.symm
      simp only [List.filter_cons, hp, Bool.false_eq_true, if_false]
      exact ih h.2

lemma filter_key_nodup (l : List (String × List Nat)) (key : String)
    (hnodup : (l.map Prod.fst).Nodup)
    (hany : l.any (fun p => p.1 == key) = true) :
    (l.filter (fun p => p.1 == key)).map Prod.fst = [key] := by
  induction l with
  | nil => simp at hany
  | cons p t ih =>
      simp only [List.map_cons, List.nodup_cons] at hnodup
      by_cases hp : (p.1 == key) = true
      · have hp1 : p.1 = key := beq_iff_eq.mp hp
        simp only [List.filter_cons, hp, if_true]
        have ht : t.filter (fun p => p.1 == key) = [] := by
          apply filter_key_not_mem
          rw [← hp1]
          exact hnodup.1
        simp [ht, hp1]
      · simp only [List.filter_cons, hp, Bool.false_eq_true, if_false]
        apply ih hnodup.2
        simp only [List.any_cons, hp, Bool.false_or] at hany
        exact hany

lemma locations_add_character (w : World) (j : Nat) (b : Agent) :
    (add_character w j b).locations = w.locations := by
  simp only [add_character, log_event]
  split <;> rfl

lemma agents_add_character (w : World) (j : Nat) (b : Agent) :
    (add_character w j b).agents = w.agents ++ [(j, b)] := by
  simp only [add_character, log_event]
  split <;> rfl

lemma find?_append_cases {α : Type} (l1 l2 : List α) (p : α → Bool) :
    (l1 ++ l2).find? p =
      match l1.find? p with
      | some x => some x
      | none => l2.find? p := by
  induction l1 with
  | nil => rfl
  | cons a t ih =>
      by_cases h : p a = true
      · simp [List.find?_cons, h]
      · simp only [List.cons_append, List.find?_cons, h, Bool.false_eq_true]
        simpa [h] using ih

lemma lookupAgent_add_character_ne (w : World) (j : Nat) (b : Agent) (cid : Nat)
    (h : cid ≠ j) :
    lookupAgent (add_character w j b) cid = lookupAgent w cid := by
  unfold lookupAgent
  rw [agents_add_character, find?_append_cases]
  cases w.agents.find? (fun p => p.1 == cid) with
  | some x => rfl
  | none =>
      simp only [List.find?_cons, List.find?_nil]
      have hj : (j == cid) = false := by
        simpa using fun hc => h hc.symm
      simp [hj]

lemma occupantKeysOf_move_ne (w : World) (j : Nat) (key : String) (cid : Nat)
    (h : cid ≠ j) :
    occupantKeysOf (move_character w j key) cid = occupantKeysOf w cid := by
  by_cases hkey : hasLocation w key = true
  · unfold occupantKeysOf
    have hloc : (move_character w j key).locations =
        (w.locations.map (fun p => (p.1, p.2.erase j))).map
          (fun p => (p.1, if p.1 == key then p.2 ++ [j] else p.2)) := by
      rw [move_character_pos w j key hkey]
      rfl
    rw [hloc, List.map_map, filter_map_comm]
    rw [List.filter_congr (q := fun p => decide (cid ∈ p.2))]
    · rw [List.map_map]
      rfl
    · intro p _
      simp only [Function.comp]
      by_cases hpk : (p.1 == key) = true
      · simp only [hpk, if_true]
        simp [List.mem_append, List.mem_erase_of_ne h, h]
      · simp only [hpk, Bool.false_eq_true, if_false]
        simp [List.mem_erase_of_ne h]
  · simp only [move_character, hkey]
    simp

lemma lookupAgent_move_ne (w : World) (j : Nat) (key : String) (cid : Nat)
    (h : cid ≠ j) :
    lookupAgent (move_character w j key) cid = lookupAgent w cid := by
  by_cases hkey : hasLocation w key = true
  · rw [move_character_pos w j key hkey, lookupAgent_log_event,
      lookupAgent_updateAgent_ne _ _ _ _ h, lookupAgent_mapOccupants,
      lookupAgent_mapOccupants]
  · simp only [move_character, hkey]
    simp

/-- C1 (amended): `add_character` does not establish the bidirectional
occupancy invariant — immediately after an agent is added it belongs to
no occupant list while its location field holds the constructor default —
and the invariant holds for an agent from its first successful move on:
every successful move establishes it for the moved agent (in any
duplicate-free state), and moves or additions of other agents preserve
each agent's invariant verdict unchanged. -/
theorem occupancy_invariant_after_move :
    (∀ (w : World) (cid : Nat) (key : String) (a : Agent),
        (w.locations.map Prod.fst).Nodup →
        hasLocation w key = true →
        lookupAgent w cid = some a →
        occupantCountOK w cid = true →
        agentConsistent (move_character w cid key) cid = true)
    ∧ (∀ (w : World) (j : Nat) (key : String) (cid : Nat), cid ≠ j →
        agentConsistent (move_character w j key) cid = agentConsistent w cid)
    ∧ (∀ (w : World) (j : Nat) (b : Agent) (cid : Nat), cid ≠ j →
        agentConsistent (add_character w j b) cid = agentConsistent w cid)
    ∧ (∀ (w : World) (cid : Nat) (b : Agent),
        lookupAgent w cid = none →
        (∀ k, cid ∉ getOccupants w k) →
        lookupAgent (add_character w cid b) cid = some b
        ∧ ∀ k, cid ∉ getOccupants (add_character w cid b) k) := by
  refine ⟨?_, ?_, ?_, ?_⟩
  · intro w cid key a hnodup hkey hcid hcount
    have hlk : lookupAgent (move_character w cid key) cid =
        some { a with location := key } := by
      rw [move_character_pos w cid key hkey, lookupAgent_log_event,
        lookupAgent_updateAgent_self, lookupAgent_mapOccupants,
        lookupAgent_mapOccupants, hcid]
      rfl
    have hocc : occupantKeysOf (move_character w cid key) cid = [key] := by
      unfold occupantKeysOf
      have hloc : (move_character w cid key).locations =
          (w.locations.map (fun p => (p.1, p.2.erase cid))).map
            (fun p => (p.1, if p.1 == key then p.2 ++ [cid] else p.2)) := by
        rw [move_character_pos w cid key hkey]
        rfl
      rw [hloc, List.map_map, filter_map_comm]
      rw [List.filter_congr (q := fun p => p.1 == key)]
      · have := filter_key_nodup w.locations key hnodup (by
          unfold hasLocation at hkey
          exact hkey)
        rw [List.map_map]
        exact this
      · intro p hp
        simp only [Function.comp]
        by_cases hpk : (p.1 == key) = true
        · simp [hpk]
        · simp only [hpk, Bool.false_eq_true, if_false]
          have hc : p.2.count cid ≤ 1 := by
            have h3 := List.all_eq_true.mp hcount _ hp
            simpa using h3
          simp [hpk, count_le_one_erase hc]
    unfold agentConsistent
    rw [hlk, hocc]
    simp
  · intro w j key cid h
    unfold agentConsistent
    rw [lookupAgent_move_ne w j key cid h, occupantKeysOf_move_ne w j key cid h]
  · intro w j b cid h
    unfold agentConsistent occupantKeysOf
    rw [lookupAgent_add_character_ne w j b cid h, locations_add_character]
  · intro w cid b hnone hocc
    constructor
    · unfold lookupAgent at hnone ⊢
      rw [agents_add_character, find?_append_cases]
      cases hf : w.agents.find? (fun p => p.1 == cid) with
      | some x => rw [hf] at hnone; simp at hnone
      | none => simp [List.find?_cons]
    · intro k
      have : getOccupants (add_character w cid b) k = getOccupants w k := by
        unfold getOccupants
        rw [locations_add_character]
      rw [this]
      exact hocc k

/-- Counterexample to C1 as stated: immediately after the fresh world
adds a character, the character is registered (its location field is the
constructor default "town_center") yet belongs to the occupant list of no
location, so the claimed exactly-one-occupancy invariant is false at this
observation point. -/
theorem occupancy_invariant_counterexample :
    agentConsistent (add_character initialWorld 0
        (mkBaseCharacter "A" "chef" ⟨10, 10, 10, 10, 10, 10, 10, 10, 10, 10⟩ 30)) 0
      = false
    ∧ (lookupAgent (add_character initialWorld 0
        (mkBaseCharacter "A" "chef" ⟨10, 10, 10, 10, 10, 10, 10, 10, 10, 10⟩ 30)) 0).isSome
      = true
    ∧ occupantKeysOf (add_character initialWorld 0
        (mkBaseCharacter "A" "chef" ⟨10, 10, 10, 10, 10, 10, 10, 10, 10, 10⟩ 30)) 0
      = []
    ∧ (mkBaseCharacter "A" "chef" ⟨10, 10, 10, 10, 10, 10, 10, 10, 10, 10⟩ 30).location
      = "town_center" := by
  refine ⟨by decide, by decide, by decide, rfl⟩

/-- Witness for C1 (amended) on a concrete world: after the first move of
the added agent the invariant holds, a move of another agent preserves
it, and a freshly added agent occupies no location. -/
theorem occupancy_invariant_after_move_witness :
    agentConsistent (move_character (add_character initialWorld 0
        (mkBaseCharacter "A" "chef" ⟨10, 10, 10, 10, 10, 10, 10, 10, 10, 10⟩ 30))
        0 "hospital") 0 = true
    ∧ agentConsistent (move_character (move_character (add_character (add_character
        initialWorld 0
        (mkBaseCharacter "A" "chef" ⟨10, 10, 10, 10, 10, 10, 10, 10, 10, 10⟩ 30))
        1 (mkBaseCharacter "B" "baker" ⟨10, 10, 10, 10, 10, 10, 10, 10, 10, 10⟩ 30))
        0 "hospital") 1 "marina") 0
      = agentConsistent (move_character (add_character (add_character
        initialWorld 0
        (mkBaseCharacter "A" "chef" ⟨10, 10, 10, 10, 10, 10, 10, 10, 10, 10⟩ 30))
        1 (mkBaseCharacter "B" "baker" ⟨10, 10, 10, 10, 10, 10, 10, 10, 10, 10⟩ 30))
        0 "hospital") 0
    ∧ (∀ k, 0 ∉ getOccupants (add_character initialWorld 0
        (mkBaseCharacter "A" "chef" ⟨10, 10, 10, 10, 10, 10, 10, 10, 10, 10⟩ 30)) k) := by
  refine ⟨?_, ?_, ?_⟩
  · exact occupancy_invariant_after_move.1 _ 0 "hospital"
      (mkBaseCharacter "A" "chef" ⟨10, 10, 10, 10, 10, 10, 10, 10, 10, 10⟩ 30)
      (by decide) (by decide) (by decide) (by decide)
  · exact occupancy_invariant_after_move.2.1 _ 1 "marina" 0 (by decide)
  · have hocc : ∀ k, 0 ∉ getOccupants initialWorld k := by
      intro k
      unfold getOccupants
      cases hf : initialWorld.locations.find? (fun p => p.1 == k) with
      | none => simp
      | some p =>
          have hp := List.mem_of_find?_eq_some hf
          have hp2 : p.2 = [] := by
            simp only [initialWorld, initialLocations, List.mem_cons,
              List.not_mem_nil, or_false] at hp
            rcases hp with rfl | rfl | rfl | rfl | rfl <;> rfl
          simp [hp2]
    exact (occupancy_invariant_after_move.2.2.2 initialWorld 0
      (mkBaseCharacter "A" "chef" ⟨10, 10, 10, 10, 10, 10, 10, 10, 10, 10⟩ 30)
      (by decide) hocc).2

lemma pickFreshName_not_used {c : List String} {u : List String}
    {n : String} {k : Nat} (h : pickFreshName c u = some (n, k)) :
    u.contains n = false := by
  induction c generalizing k with
  | nil => exact Option.noConfusion h
  | cons x rest ih =>
      unfold pickFreshName at h
      by_cases hx : u.contains x = true
      · rw [if_pos hx] at h
        cases hp : pickFreshName rest u with
        | none => rw [hp] at h; simp at h
        | some p =>
            rw [hp] at h
            obtain ⟨q, r⟩ := p
            simp only [Option.map] at h
            have h2 := Option.some.inj h
            have h3 : q = n := congrArg Prod.fst h2
            subst h3
            exact ih hp
      · rw [if_neg hx] at h
        simp only [Option.some_inj] at h
        cases h
        simpa using hx

/-- C8 (amended): the name-collision loop of `create_npcs` has no retry
bound and no failure path: for every n, a draw sequence of n collisions
followed by a fresh name succeeds after exactly n redraws (no
GenerationError exists anywhere in the code), and if every available
draw collides the loop simply never selects a name (in Python it spins
forever); a collision only redraws, so nothing already created is
touched. -/
theorem name_retry_unbounded :
    (∀ (n : Nat) (dup fresh : String) (used : List String),
        used.contains dup = true → used.contains fresh = false →
        pickFreshName (List.replicate n dup ++ [fresh]) used = some (fresh, n))
    ∧ (∀ (draws used : List String),
        (∀ d ∈ draws, used.contains d = true) →
        pickFreshName draws used = none) := by
  constructor
  · intro n dup fresh used hdup hfresh
    induction n with
    | zero =>
        simp only [List.replicate_zero, List.nil_append]
        unfold pickFreshName
        rw [if_neg (by rw [hfresh]; simp)]
    | succ n ih =>
        simp only [List.replicate_succ, List.cons_append]
        unfold pickFreshName
        rw [if_pos hdup, ih]
        rfl
  · intro draws used h
    induction draws with
    | nil => rfl
    | cons d rest ih =>
        unfold pickFreshName
        rw [if_pos (h d (by simp))]
        rw [ih (fun x hx => h x (by simp [hx]))]
        rfl

/-- Counterexample to C8 as stated: a run in which the redraw loop
collides 150 times — beyond the bound of 100 retries the design notes
suggest — and then succeeds with the 151st draw, raising nothing: retries
are not bounded and exhausting any bound does not produce a
GenerationError. -/
theorem name_retry_counterexample :
    pickFreshName (List.replicate 150 "Alex Rivers" ++ ["Jordan Brooks"])
        ["Alex Rivers"] = some ("Jordan Brooks", 150)
    ∧ 100 < 150 := by
  refine ⟨?_, by decide⟩
  exact name_retry_unbounded.1 150 "Alex Rivers" "Jordan Brooks" ["Alex Rivers"]
    (by decide) (by decide)

/-- Witness for C8 (amended) at concrete inputs: three collisions on
"Alex Rivers" then success, and a draw list that never frees up. -/
theorem name_retry_unbounded_witness :
    pickFreshName (List.replicate 3 "Alex Rivers" ++ ["Jordan Brooks"])
        ["Alex Rivers"] = some ("Jordan Brooks", 3)
    ∧ pickFreshName ["Alex Rivers", "Alex Rivers"] ["Alex Rivers"] = none := by
  constructor
  · exact name_retry_unbounded.1 3 "Alex Rivers" "Jordan Brooks" ["Alex Rivers"]
      (by decide) (by decide)
  · exact name_retry_unbounded.2 ["Alex Rivers", "Alex Rivers"] ["Alex Rivers"]
      (by decide)

lemma lookupAssoc_overwrite {β : Type} (db : List (String × β)) (k : String)
    (v : β) (h : db.any (fun p => p.1 == k) = true) :
    lookupAssoc (db.map (fun p => if p.1 == k then (k, v) else p)) k = some v := by
  induction db with
  | nil => simp at h
  | cons p t ih =>
      by_cases hp : (p.1 == k) = true
      · unfold lookupAssoc
        simp only [List.map_cons, if_pos hp, List.find?_cons]
        simp
      · unfold lookupAssoc at ih ⊢
        rw [List.map_cons, if_neg hp, List.find?_cons]
        have hp2 : (p.1 == k) = false := by simpa using hp
        rw [hp2]
        apply ih
        simp only [List.any_cons, hp2, Bool.false_or] at h
        exact h

lemma lookupAssoc_setAssoc_self {β : Type} (db : List (String × β)) (k : String)
    (v : β) : lookupAssoc (setAssoc db k v) k = some v := by
  unfold setAssoc
  split
  · next h => exact lookupAssoc_overwrite db k v h
  · next h =>
      unfold lookupAssoc
      rw [find?_append_cases]
      have hnone : db.find? (fun p => p.1 == k) = none := by
        apply List.find?_eq_none.mpr
        intro p hp
        intro hc
        exact h (List.any_eq_true.mpr ⟨p, hp, hc⟩)
      rw [hnone]
      simp [List.find?_cons]

lemma lookupAssoc_setAssoc_ne {β : Type} (db : List (String × β)) (k : String)
    (v : β) (q : String) (h : q ≠ k) :
    lookupAssoc (setAssoc db k v) q = lookupAssoc db q := by
  unfold setAssoc
  split
  · unfold lookupAssoc
    rw [find?_keyed_map db (fun p => if p.1 == k then (k, v) else p)
      (fun p => p.1 == q) ?hg]
    case hg =>
      intro p
      by_cases hp : (p.1 == k) = true
      · simp only [if_pos hp]
        have hp1 : p.1 = k := beq_iff_eq.mp hp
        rw [hp1]
      · simp only [if_neg hp]
    cases hf : db.find? (fun p => p.1 == q) with
    | none => rfl
    | some p =>
        have hq : p.1 = q := by
          have h5 := List.find?_some hf
          exact beq_iff_eq.mp (by simpa using h5)
        have hnep : p.1 ≠ k := by
          rw [hq]
          exact h
        simp [hnep]
  · unfold lookupAssoc
    rw [find?_append_cases]
    cases hf : db.find? (fun p => p.1 == q) with
    | some p => rfl
    | none =>
        have hk : (k == q) = false := by
          simpa using fun hc => h hc.symm
        simp [List.find?_cons, hk]

lemma expandJobs_cons (p : String × Nat) (t : List (String × Nat)) :
    expandJobs (p :: t) = List.replicate p.2 p.1 ++ expandJobs t := by
  simp [expandJobs]

lemma expandJobs_length (dist : List (String × Nat)) :
    (expandJobs dist).length = (dist.map Prod.snd).sum := by
  induction dist with
  | nil => rfl
  | cons p t ih => simp [expandJobs_cons, ih]

lemma count_expandJobs_zero (dist : List (String × Nat)) (j : String)
    (h : j ∉ dist.map Prod.fst) : (expandJobs dist).count j = 0 := by
  induction dist with
  | nil => rfl
  | cons p t ih =>
      simp only [List.map_cons, List.mem_cons] at h
      push_neg at h
      rw [expandJobs_cons, List.count_append, List.count_replicate]
      have hne : (p.1 == j) = false := by
        simpa using fun hc : p.1 = j => h.1 hc.symm
      rw [hne]
      simpa using ih h.2

lemma count_expandJobs (dist : List (String × Nat)) (j : String) (q : Nat)
    (hnodup : (dist.map Prod.fst).Nodup) (hmem : (j, q) ∈ dist) :
    (expandJobs dist).count j = q := by
  induction dist with
  | nil => simp at hmem
  | cons p t ih =>
      simp only [List.map_cons, List.nodup_cons] at hnodup
      rw [expandJobs_cons, List.count_append, List.count_replicate]
      rcases List.mem_cons.mp hmem with heq | htail
      · cases heq
        rw [if_pos (by simp)]
        rw [count_expandJobs_zero t j hnodup.1]
        simp
      · have hjmem : j ∈ t.map Prod.fst :=
          List.mem_map.mpr ⟨(j, q), htail, rfl⟩
        have hne : (p.1 == j) = false := by
          simpa using fun hc : p.1 = j => hnodup.1 (by rw [hc]; exact hjmem)
        rw [hne]
        simpa using ih hnodup.2 htail

lemma npcNew_name (name job : String) (g : NPCGenOracle) :
    (npcNew name job g).name = name := rfl

lemma npcNew_job (name job : String) (g : NPCGenOracle) :
    (npcNew name job g).job = job := rfl

lemma createLoop_spec (o : CreateOracle) :
    ∀ (jobs : List String) (i : Nat) (used : List String)
      (created : List Agent) (db : List (String × Agent))
      (res : List Agent × List (String × Agent)),
      (∀ a ∈ created, a.name ∈ used) →
      (created.map Agent.name).Nodup →
      (∀ a ∈ created, lookupAssoc db a.name = some a) →
      createLoop o jobs i used created db = some res →
      res.1.length = created.length + jobs.length
      ∧ res.1.map Agent.job = created.map Agent.job ++ jobs
      ∧ (res.1.map Agent.name).Nodup
      ∧ (∀ a ∈ res.1, lookupAssoc res.2 a.name = some a) := by
  intro jobs
  induction jobs with
  | nil =>
      intro i used created db res hnames hnodup hdb hres
      unfold createLoop at hres
      cases hres
      exact ⟨by simp, by simp, hnodup, hdb⟩
  | cons job rest ih =>
      intro i used created db res hnames hnodup hdb hres
      unfold createLoop at hres
      cases hp : pickFreshName ((o.nameDraws i).map generate_random_name) used with
      | none => rw [hp] at hres; exact Option.noConfusion hres
      | some p =>
          obtain ⟨name, k⟩ := p
          rw [hp] at hres
          have hfresh : name ∉ used := by
            have h6 := pickFreshName_not_used hp
            simpa using h6
          have hnames2 : ∀ a ∈ created ++ [npcNew name job (o.gen i)],
              a.name ∈ used ++ [name] := by
            intro a ha
            rcases List.mem_append.mp ha with h1 | h1
            · exact List.mem_append.mpr (Or.inl (hnames a h1))
            · simp only [List.mem_singleton] at h1
              subst h1
              simp [npcNew_name]
          have hnodup2 : ((created ++ [npcNew name job (o.gen i)]).map
              Agent.name).Nodup := by
            rw [List.map_append]
            apply List.Nodup.append hnodup (by simp)
            intro x hx hy
            simp only [List.map_cons, List.map_nil, List.mem_singleton,
              npcNew_name] at hy
            subst hy
            obtain ⟨a, ha, hname⟩ := List.mem_map.mp hx
            exact hfresh (hname ▸ hnames a ha)
          have hdb2 : ∀ a ∈ created ++ [npcNew name job (o.gen i)],
              lookupAssoc (setAssoc db name (npcNew name job (o.gen i))) a.name
                = some a := by
            intro a ha
            rcases List.mem_append.mp ha with h1 | h1
            · rw [lookupAssoc_setAssoc_ne]
              · exact hdb a h1
              · intro hc
                exact hfresh (hc ▸ hnames a h1)
            · simp only [List.mem_singleton] at h1
              subst h1
              rw [npcNew_name]
              exact lookupAssoc_setAssoc_self db name _
          obtain ⟨hl, hj, hn, hd⟩ := ih (i + 1) (used ++ [name])
            (created ++ [npcNew name job (o.gen i)])
            (setAssoc db name (npcNew name job (o.gen i))) res
            hnames2 hnodup2 hdb2 hres
          refine ⟨?_, ?_, hn, hd⟩
          · simp only [List.length_append, List.length_cons,
              List.length_nil] at hl ⊢
            omega
          · rw [hj]
            simp [npcNew_job]

lemma length_filter_job (l : List Agent) (j : String) :
    (l.filter (fun a => a.job == j)).length = (l.map Agent.job).count j := by
  induction l with
  | nil => rfl
  | cons a t ih =>
      simp only [List.filter_cons, List.map_cons, List.count_cons]
      by_cases h : (a.job == j) = true
      · simp [h, ih]
      · simp [h, ih]

/-- C7: `create_npcs` called with a count equal to the sum of the quota
table (on a fresh manager, with a shuffle oracle that permutes its input
and name draws that let every redraw loop terminate) produces exactly
`count` agents, per-job counts matching the quota table exactly, pairwise
distinct names, and a registry mapping each generated name to its
agent. -/
theorem create_npcs_quota (o : CreateOracle) (dist : List (String × Nat))
    (count : Nat)
    (hkeys : (dist.map Prod.fst).Nodup)
    (hcount : count = (dist.map Prod.snd).sum)
    (hshuf : ∀ l, List.Perm (o.shufflePerm l) l)
    (hsucc : (create_npcs o dist count).isSome = true) :
    ∃ created db, create_npcs o dist count = some (created, db)
      ∧ created.length = count
      ∧ (∀ jq ∈ dist, (created.filter (fun a => a.job == jq.1)).length = jq.2)
      ∧ (created.map Agent.name).Nodup
      ∧ (∀ a ∈ created, lookupAssoc db a.name = some a) := by
  cases hres : create_npcs o dist count with
  | none => rw [hres] at hsucc; simp at hsucc
  | some res =>
      obtain ⟨created, db⟩ := res
      refine ⟨created, db, rfl, ?_⟩
      have hlen0 : (expandJobs dist).length = count := by
        rw [expandJobs_length, hcount]
      simp only [create_npcs] at hres
      rw [show count - (expandJobs dist).length = 0 by omega] at hres
      simp only [List.take_zero, List.append_nil] at hres
      have hperm : List.Perm (o.shufflePerm (expandJobs dist)) (expandJobs dist) :=
        hshuf (expandJobs dist)
      have hlens : (o.shufflePerm (expandJobs dist)).length = count := by
        rw [hperm.length_eq, hlen0]
      have htake : List.take count (o.shufflePerm (expandJobs dist))
          = o.shufflePerm (expandJobs dist) := by
        rw [← hlens]
        exact List.take_length _
      rw [htake] at hres
      obtain ⟨hl, hj, hn, hd⟩ := createLoop_spec o
        (o.shufflePerm (expandJobs dist)) 0 [] [] [] (created, db)
        (by intro a ha; simp at ha) (by simp) (by intro a ha; simp at ha) hres
      refine ⟨?_, ?_, hn, hd⟩
      · simpa [hlens] using hl
      · intro jq hjq
        obtain ⟨j, q⟩ := jq
        rw [length_filter_job, hj]
        simp only [List.map_nil, List.nil_append]
        rw [hperm.count_eq]
        exact count_expandJobs dist j q hkeys hjq

set_option maxRecDepth 4000 in
/-- Witness for C7 at a concrete quota table of total 3, identity shuffle
and distinct name draws. -/
theorem create_npcs_quota_witness :
    ∃ created db,
      create_npcs
        { padDraws := []
          shufflePerm := fun l => l
          nameDraws := fun i => [(i, 0)]
          gen := fun _ => ⟨fun _ => 0, 0, 0, 0, false, 0, false, false⟩ }
        [("shopkeeper", 2), ("fisherman", 1)] 3 = some (created, db)
      ∧ created.length = 3
      ∧ (∀ jq ∈ [("shopkeeper", 2), ("fisherman", 1)],
          (created.filter (fun a => a.job == jq.1)).length = jq.2)
      ∧ (created.map Agent.name).Nodup
      ∧ (∀ a ∈ created, lookupAssoc db a.name = some a) := by
  exact create_npcs_quota _ _ 3 (by decide) (by decide)
    (fun l => List.Perm.refl l) (by decide)

/-- The frame relation of one agent-processing call: the two population
lists and the clock are unchanged, and every agent other than the
processed one is untouched. -/
def framePreserves (j : Nat) (w w2 : World) : Prop :=
  w2.npcs = w.npcs ∧ w2.ai_characters = w.ai_characters
  ∧ w2.timeHours = w.timeHours
  ∧ ∀ i, i ≠ j → lookupAgent w2 i = lookupAgent w i

lemma fp_refl (j : Nat) (w : World) : framePreserves j w w :=
  ⟨rfl, rfl, rfl, fun _ _ => rfl⟩

lemma fp_trans {j : Nat} {w w2 w3 : World} (h1 : framePreserves j w w2)
    (h2 : framePreserves j w2 w3) : framePreserves j w w3 :=
  ⟨h2.1.trans h1.1, h2.2.1.trans h1.2.1, h2.2.2.1.trans h1.2.2.1,
   fun i hi => (h2.2.2.2 i hi).trans (h1.2.2.2 i hi)⟩

lemma fp_updateAgent (j : Nat) (w : World) (f : Agent → Agent) :
    framePreserves j w (updateAgent w j f) :=
  ⟨rfl, rfl, rfl, fun i hi => lookupAgent_updateAgent_ne w j i f hi⟩

lemma fp_mapOccupants (j : Nat) (w : World) (f : String → List Nat → List Nat) :
    framePreserves j w (mapOccupants w f) :=
  ⟨rfl, rfl, rfl, fun _ _ => rfl⟩

lemma fp_log_event (j : Nat) (w : World) (a b c d : String) :
    framePreserves j w (log_event w a b c d) :=
  ⟨rfl, rfl, rfl, fun _ _ => rfl⟩

lemma fp_move_character (j : Nat) (w : World) (key : String) :
    framePreserves j w (move_character w j key) := by
  by_cases h : hasLocation w key = true
  · rw [move_character_pos w j key h]
    exact fp_trans (fp_trans (fp_trans (fp_mapOccupants j w _)
      (fp_mapOccupants j _ _)) (fp_updateAgent j _ _)) (fp_log_event j _ _ _ _ _)
  · simp only [move_character, h]
    simp only [Bool.false_eq_true, if_false]
    exact fp_refl j w

lemma fp_base_rest (j : Nat) (w : World) :
    framePreserves j w (base_rest_effect j w) :=
  fp_updateAgent j w _

lemma fp_base_explore (o : ActionOracle) (j : Nat) (w : World) :
    framePreserves j w (base_explore_effect o j w) := by
  unfold base_explore_effect
  split
  · exact fp_trans (fp_move_character j w _) (fp_updateAgent j _ _)
  · exact fp_refl j w

lemma fp_base_socialize (o : ActionOracle) (j : Nat) (w : World) :
    framePreserves j w (base_socialize_effect o j w) := by
  simp only [base_socialize_effect]
  split
  · split
    · split
      · exact fp_refl j w
      · exact fp_trans (fp_updateAgent j w _) (fp_updateAgent j _ _)
    · exact fp_refl j w
  · exact fp_refl j w

lemma fp_base_execute (o : ActionOracle) (j : Nat) (action : String)
    (w : World) : framePreserves j w (base_execute_action o j action w) := by
  unfold base_execute_action
  refine fp_trans (fp_trans (fp_updateAgent j w (set_activity action)) ?_)
    (fp_updateAgent j _ _)
  split
  · exact fp_base_rest j _
  · split
    · exact fp_base_explore o j _
    · split
      · exact fp_base_socialize o j _
      · exact fp_refl j _

lemma fp_npc_execute (o : ActionOracle) (j : Nat) (action : String) (w : World) :
    framePreserves j w (npc_execute_action o j action w) := by
  simp only [npc_execute_action]
  refine fp_trans (fp_base_execute o j action w) ?_
  split
  · split
    · refine fp_trans (fp_trans ?_ (fp_updateAgent j _ _)) (fp_updateAgent j _ _)
      split
      · exact fp_move_character j _ _
      · exact fp_refl j _
    · exact fp_refl j _
  · split
    · split
      · split
        · exact fp_refl j _
        · exact fp_trans (fp_trans (fp_updateAgent j _ _) (fp_updateAgent j _ _))
            (fp_log_event j _ _ _ _ _)
      · exact fp_refl j _
    · split
      · split
        · exact fp_trans (fp_updateAgent j _ _) (fp_log_event j _ _ _ _ _)
        · exact fp_updateAgent j _ _
      · split
        · split
          · exact fp_trans (fp_updateAgent j _ _) (fp_log_event j _ _ _ _ _)
          · exact fp_updateAgent j _ _
        · exact fp_refl j _

lemma fp_researcher_execute (o : ActionOracle) (j : Nat) (action : String)
    (w : World) : framePreserves j w (researcher_execute_action o j action w) := by
  simp only [researcher_execute_action]
  refine fp_trans (fp_base_execute o j action w) ?_
  split
  · split
    · exact fp_trans (fp_updateAgent j _ _) (fp_log_event j _ _ _ _ _)
    · exact fp_updateAgent j _ _
  · split
    · split
      · split
        · split
          · split
            · exact fp_trans (fp_updateAgent j _ _) (fp_log_event j _ _ _ _ _)
            · exact fp_updateAgent j _ _
          · exact fp_refl j _
        · exact fp_refl j _
      · exact fp_refl j _
    · split
      · split
        · split
          · split
            · exact fp_trans (fp_updateAgent j _ _) (fp_log_event j _ _ _ _ _)
            · exact fp_updateAgent j _ _
          · exact fp_refl j _
        · exact fp_refl j _
      · split
        · split
          · split
            · exact fp_refl j _
            · exact fp_trans (fp_updateAgent j _ _) (fp_log_event j _ _ _ _ _)
          · exact fp_refl j _
        · exact fp_refl j _

lemma fp_surgeon_execute (o : ActionOracle) (j : Nat) (action : String)
    (w : World) : framePreserves j w (surgeon_execute_action o j action w) := by
  simp only [surgeon_execute_action]
  refine fp_trans (fp_base_execute o j action w) ?_
  split
  · split
    · exact fp_trans (fp_updateAgent j _ _) (fp_log_event j _ _ _ _ _)
    · exact fp_updateAgent j _ _
  · split
    · split
      · exact fp_trans (fp_updateAgent j _ _) (fp_log_event j _ _ _ _ _)
      · exact fp_updateAgent j _ _
    · split
      · split
        · exact fp_trans (fp_updateAgent j _ _) (fp_log_event j _ _ _ _ _)
        · exact fp_updateAgent j _ _
      · split
        · split
          · exact fp_trans (fp_updateAgent j _ _) (fp_log_event j _ _ _ _ _)
          · exact fp_updateAgent j _ _
        · exact fp_refl j _

lemma fp_dispatch_execute (o : ActionOracle) (j : Nat) (action : String)
    (w : World) : framePreserves j w (dispatch_execute_action o j action w) := by
  unfold dispatch_execute_action
  split
  · split
    · exact fp_base_execute o j action w
    · exact fp_npc_execute o j action w
    · exact fp_researcher_execute o j action w
    · exact fp_surgeon_execute o j action w
  · exact fp_refl j w

lemma fp_take_action (o : ActionOracle) (j : Nat) (w : World) :
    framePreserves j w (take_action o j w) := by
  simp only [take_action]
  split
  · split
    · exact fp_refl j w
    · exact fp_dispatch_execute o j _ w
  · exact fp_refl j w

lemma fp_follow_routine (j : Nat) (hour : Nat) (w : World) :
    framePreserves j w (follow_routine j hour w) := by
  unfold follow_routine
  split
  · split
    · refine fp_trans ?_ (fp_updateAgent j _ _)
      split
      · exact fp_move_character j _ _
      · exact fp_refl j _
    · exact fp_refl j _
  · exact fp_refl j w

lemma update_time_frame (w : World) (h : Nat) :
    (update_time w h).npcs = w.npcs
    ∧ (update_time w h).ai_characters = w.ai_characters
    ∧ (update_time w h).timeHours = w.timeHours + h
    ∧ ∀ i, lookupAgent (update_time w h) i = lookupAgent w i :=
  ⟨rfl, rfl, rfl, fun _ => rfl⟩

lemma foldl_fp (f : Nat → World → World)
    (hf : ∀ c w, framePreserves c w (f c w)) (ids : List Nat) (w : World) :
    (ids.foldl (fun w c => f c w) w).npcs = w.npcs
    ∧ (ids.foldl (fun w c => f c w) w).ai_characters = w.ai_characters
    ∧ (ids.foldl (fun w c => f c w) w).timeHours = w.timeHours
    ∧ ∀ i, i ∉ ids →
        lookupAgent (ids.foldl (fun w c => f c w) w) i = lookupAgent w i := by
  induction ids generalizing w with
  | nil => exact ⟨rfl, rfl, rfl, fun _ _ => rfl⟩
  | cons c t ih =>
      simp only [List.foldl_cons]
      obtain ⟨h1, h2, h3, h4⟩ := ih (f c w)
      have hc := hf c w
      refine ⟨h1.trans hc.1, h2.trans hc.2.1, h3.trans hc.2.2.1, ?_⟩
      intro i hi
      simp only [List.mem_cons] at hi
      push_neg at hi
      exact (h4 i hi.2).trans (hc.2.2.2 i hi.1)

/-- C3 (amended): one step of the simulation loop advances the clock by
exactly one hour and processes all principal agents, then the first ten
entries of the background list in order (`npcs[:10]` in
`World.simulate_step` — not a random sample), then a random sample of
`min(50, population)` background agents, each acting with probability 0.3
and following its routine with probability 0.7; every background agent
that is neither among the first ten nor in the sample retains its prior
state unchanged. -/
theorem run_simulation_step_frame (oracles : Nat → ActionOracle)
    (actCoin routineCoin : Nat → Bool) (sample : List Nat) (w : World)
    (_hsub : ∀ c ∈ sample, c ∈ w.npcs)
    (_hlen : sample.length = min 50 w.npcs.length)
    (_hnodup : sample.Nodup) :
    (run_simulation_step oracles actCoin routineCoin sample w).timeHours
      = w.timeHours + 1
    ∧ ∀ i, i ∉ w.ai_characters → i ∉ w.npcs.take 10 → i ∉ sample →
        lookupAgent (run_simulation_step oracles actCoin routineCoin sample w) i
          = lookupAgent w i := by
  have hf_act : ∀ c w, framePreserves c w
      (if actCoin c then take_action (oracles c) c w else w) := by
    intro c w
    split
    · exact fp_take_action (oracles c) c w
    · exact fp_refl c w
  have hf_rout : ∀ (H : Nat), ∀ c w, framePreserves c w
      (if routineCoin c then follow_routine c H w else w) := by
    intro H c w
    split
    · exact fp_follow_routine c H w
    · exact fp_refl c w
  set W1 := update_time w 1 with hW1
  set W2 := W1.ai_characters.foldl
    (fun w cid => take_action (oracles cid) cid w) W1 with hW2
  set W3 := (W2.npcs.take 10).foldl
    (fun w cid => take_action (oracles cid) cid w) W2 with hW3
  set W4 := sample.foldl
    (fun w cid => if actCoin cid then take_action (oracles cid) cid w else w)
    W3 with hW4
  set W5 := sample.foldl
    (fun w cid => if routineCoin cid then
      follow_routine cid (W4.timeHours % 24) w else w) W4 with hW5
  have hrun : run_simulation_step oracles actCoin routineCoin sample w = W5 := rfl
  obtain ⟨ht1n, ht1a, ht1t, ht1l⟩ := update_time_frame w 1
  have h2 := foldl_fp (fun cid w => take_action (oracles cid) cid w)
    (fun c w => fp_take_action (oracles c) c w) W1.ai_characters W1
  have h3 := foldl_fp (fun cid w => take_action (oracles cid) cid w)
    (fun c w => fp_take_action (oracles c) c w) (W2.npcs.take 10) W2
  have h4 := foldl_fp
    (fun cid w => if actCoin cid then take_action (oracles cid) cid w else w)
    hf_act sample W3
  have h5 := foldl_fp
    (fun cid w => if routineCoin cid then
      follow_routine cid (W4.timeHours % 24) w else w)
    (hf_rout (W4.timeHours % 24)) sample W4
  rw [hrun]
  constructor
  · rw [h5.2.2.1, h4.2.2.1, h3.2.2.1, h2.2.2.1, ht1t]
  · intro i hai hten hsample
    have hten2 : i ∉ W2.npcs.take 10 := by
      rw [h2.1, ht1n]
      exact hten
    have hai2 : i ∉ W1.ai_characters := by
      rw [ht1a]
      exact hai
    rw [h5.2.2.2 i hsample, h4.2.2.2 i hsample, h3.2.2.2 i hten2,
      h2.2.2.2 i hai2, ht1l i]

/-- Witness for C3 (amended) on a concrete world: the empty fresh world
with the empty (and only valid) sample leaves an absent id untouched and
moves the clock one hour. -/
theorem run_simulation_step_frame_witness :
    (run_simulation_step (fun _ => ⟨0, 0, 0, 0, 0, 0, 0, 0, 0, 0, 0, 0, 0, 0, 0, 0⟩)
        (fun _ => false) (fun _ => false) [] initialWorld).timeHours
      = initialWorld.timeHours + 1
    ∧ lookupAgent (run_simulation_step
        (fun _ => ⟨0, 0, 0, 0, 0, 0, 0, 0, 0, 0, 0, 0, 0, 0, 0, 0⟩)
        (fun _ => false) (fun _ => false) [] initialWorld) 7
      = lookupAgent initialWorld 7 := by
  have h := run_simulation_step_frame
    (fun _ => ⟨0, 0, 0, 0, 0, 0, 0, 0, 0, 0, 0, 0, 0, 0, 0, 0⟩)
    (fun _ => false) (fun _ => false) [] initialWorld
    (by intro c hc; simp at hc) (by decide) (by decide)
  exact ⟨h.1, h.2 7 (by decide) (by decide) (by decide)⟩

lemma mem_eraseDups_loop {α : Type} [BEq α] (as : List α) :
    ∀ (r : List α) (a : α), a ∈ List.eraseDups.loop as r → a ∈ r ∨ a ∈ as := by
  induction as with
  | nil =>
      intro r a h
      rw [show List.eraseDups.loop ([] : List α) r = r.reverse from rfl] at h
      exact Or.inl (List.mem_reverse.mp h)
  | cons x l ih =>
      intro r a h
      rw [show List.eraseDups.loop (x :: l) r =
          (match List.elem x r with
           | true => List.eraseDups.loop l r
           | false => List.eraseDups.loop l (x :: r)) from rfl] at h
      split at h
      · rcases ih r a h with h1 | h1
        · exact Or.inl h1
        · exact Or.inr (List.mem_cons_of_mem x h1)
      · rcases ih (x :: r) a h with h1 | h1
        · rcases List.mem_cons.mp h1 with h2 | h2
          · exact Or.inr (h2 ▸ List.mem_cons_self x l)
          · exact Or.inl h2
        · exact Or.inr (List.mem_cons_of_mem x h1)

lemma mem_of_mem_eraseDups {α : Type} [BEq α] {l : List α} {a : α}
    (h : a ∈ l.eraseDups) : a ∈ l := by
  rcases mem_eraseDups_loop l [] a h with h1 | h1
  · simp at h1
  · exact h1

lemma walkWeights_mem (choice current : ℚ) (ws : List (String × ℚ)) (a : String)
    (h : walkWeights choice current ws = some a) : a ∈ ws.map Prod.fst := by
  induction ws generalizing current with
  | nil => exact Option.noConfusion h
  | cons p t ih =>
      obtain ⟨x, wt⟩ := p
      unfold walkWeights at h
      split at h
      · cases h
        simp
      · simp only [List.map_cons, List.mem_cons]
        exact Or.inr (ih _ h)

lemma getD_mem {α : Type} (l : List α) (i : Nat) (d : α) (h : i < l.length) :
    l.getD i d ∈ l := by
  induction l generalizing i with
  | nil => simp at h
  | cons x t ih =>
      cases i with
      | zero => simp [List.getD]
      | succ n =>
          simp only [List.getD_cons_succ]
          exact List.mem_cons_of_mem _ (ih n (by simpa using h))

lemma choose_action_mem (p : PersonalityTraits) (e : Int)
    (possible_actions : List String) (choice : ℚ) (idx : Nat)
    (hne : possible_actions ≠ []) :
    choose_action p e possible_actions choice idx ∈ possible_actions := by
  simp only [choose_action]
  split
  · next a ha =>
      have h1 := walkWeights_mem _ _ _ _ ha
      unfold traitWeights at h1
      rcases List.mem_map.mp h1 with ⟨pr, hpr, hfst⟩
      rcases List.mem_map.mp hpr with ⟨x, hx, hxp⟩
      subst hxp
      subst hfst
      exact mem_of_mem_eraseDups hx
  · apply getD_mem
    exact Nat.mod_lt _ (List.length_pos.mpr hne)

/-- The current activity of the agent behind an id. -/
def agentActivity (w : World) (cid : Nat) : Option String :=
  (lookupAgent w cid).map Agent.current_activity

lemma agentActivity_updateAgent_comp (w : World) (cid : Nat) (f : Agent → Agent)
    (g : String → String)
    (h : ∀ a, (f a).current_activity = g a.current_activity) :
    agentActivity (updateAgent w cid f) cid = (agentActivity w cid).map g := by
  unfold agentActivity
  rw [lookupAgent_updateAgent_self, Option.map_map]
  cases lookupAgent w cid with
  | none => rfl
  | some a => simp [h]

lemma add_memory_activity (content : String) (importance : Int) (a : Agent) :
    (add_memory content importance a).current_activity = a.current_activity := by
  simp only [add_memory]
  split
  · rfl
  · rfl

lemma move_character_agentActivity (w : World) (cid : Nat) (key : String)
    (i : Nat) :
    agentActivity (move_character w cid key) i = agentActivity w i := by
  unfold move_character
  split
  · unfold agentActivity
    rw [lookupAgent_log_event]
    by_cases hi : i = cid
    · subst hi
      rw [lookupAgent_updateAgent_self, lookupAgent_mapOccupants,
        lookupAgent_mapOccupants, Option.map_map]
      rfl
    · rw [lookupAgent_updateAgent_ne _ _ _ _ hi, lookupAgent_mapOccupants,
        lookupAgent_mapOccupants]
  · rfl

lemma base_rest_effect_activity (cid : Nat) (w : World) :
    agentActivity (base_rest_effect cid w) cid = agentActivity w cid := by
  unfold base_rest_effect
  rw [agentActivity_updateAgent_comp w cid
    (fun a => add_memory "I rested and feel more energetic" 2
      { a with energy := min 100 (a.energy + 20) }) id
    (fun a => add_memory_activity _ _ _)]
  cases agentActivity w cid with
  | none => rfl
  | some s => rfl

lemma base_explore_effect_activity (o : ActionOracle) (cid : Nat) (w : World) :
    agentActivity (base_explore_effect o cid w) cid = agentActivity w cid := by
  unfold base_explore_effect
  cases hw : lookupAgent w cid with
  | none => rfl
  | some a =>
      rw [agentActivity_updateAgent_comp _ _
        (add_memory "I explored and moved" 4) id
        (fun a => add_memory_activity _ _ _)]
      rw [move_character_agentActivity]
      cases agentActivity w cid with
      | none => rfl
      | some s => rfl

lemma base_socialize_effect_activity (o : ActionOracle) (cid : Nat) (w : World) :
    agentActivity (base_socialize_effect o cid w) cid = agentActivity w cid := by
  simp only [base_socialize_effect]
  split
  · split
    · split
      · rfl
      · rw [agentActivity_updateAgent_comp _ _ _ id]
        · rw [agentActivity_updateAgent_comp _ _ _ id]
          · cases agentActivity w cid with
            | none => rfl
            | some s => rfl
          · exact fun a => add_memory_activity _ _ _
        · intro a
          split
          · rfl
          · rfl
    · rfl
  · rfl

lemma base_execute_action_activity (o : ActionOracle) (cid : Nat)
    (action : String) (w : World) :
    agentActivity (base_execute_action o cid action w) cid =
      (agentActivity w cid).map (fun _ => action) := by
  simp only [base_execute_action]
  have hset : agentActivity (updateAgent w cid (set_activity action)) cid =
      (agentActivity w cid).map (fun _ => action) :=
    agentActivity_updateAgent_comp w cid (set_activity action)
      (fun _ => action) (fun a => rfl)
  have hsub : ∀ w2 : World,
      agentActivity (updateAgent w2 cid
        (fun a => { a with energy := max 0 (a.energy - 5) })) cid
      = agentActivity w2 cid := by
    intro w2
    rw [agentActivity_updateAgent_comp _ _
      (fun a => { a with energy := max 0 (a.energy - 5) }) id (fun a => rfl)]
    cases agentActivity w2 cid with
    | none => rfl
    | some s => rfl
  rw [hsub]
  split
  · rw [base_rest_effect_activity, hset]
  · split
    · rw [base_explore_effect_activity, hset]
    · split
      · rw [base_socialize_effect_activity, hset]
      · exact hset

lemma foldl_cond_skip (g : Nat → World → World) (coin : Nat → Bool)
    (h : ∀ c, coin c = false) (ids : List Nat) (w : World) :
    ids.foldl (fun w c => if coin c then g c w else w) w = w := by
  induction ids generalizing w with
  | nil => rfl
  | cons c t ih => simp [List.foldl_cons, h c, ih]

lemma npc_interactions_coins_false (oracles : Nat → ActionOracle)
    (sample : List Nat) (w : World) :
    simulate_npc_interactions oracles (fun _ => false) (fun _ => false)
      sample w = w := by
  simp only [simulate_npc_interactions]
  rw [foldl_cond_skip (fun cid w2 => take_action (oracles cid) cid w2)
    (fun _ => false) (fun _ => rfl) sample w]
  rw [foldl_cond_skip (fun cid w2 => follow_routine cid (w.timeHours % 24) w2)
    (fun _ => false) (fun _ => rfl) sample w]

/-- A plain background townsperson object as registered by
`add_character` (job outside the two principal jobs). -/
def frameDemoAgent : Agent :=
  mkBaseCharacter "Quinn Rivers" "plumber" ⟨0, 0, 0, 0, 0, 0, 0, 0, 0, 0⟩ 30

/-- A world holding sixty background characters (ids 0–59) and no
principal characters, as after sixty `add_character` calls. -/
def frameDemoWorld : World :=
  { initialWorld with
      agents := (List.range 60).map (fun i => (i, frameDemoAgent))
      npcs := List.range 60 }

/-- A valid `random.sample` outcome of size `min 50 60`: the background
ids 10–59, leaving ids 0–9 unsampled. -/
def frameDemoSample : List Nat := (List.range 60).drop 10

/-- A fixed resolution of every random draw. -/
def zeroOracle : ActionOracle :=
  ⟨0, 0, 0, 0, 0, 0, 0, 0, 0, 0, 0, 0, 0, 0, 0, 0⟩

lemma frameDemo_final_activity :
    agentActivity (run_simulation_step (fun _ => zeroOracle)
      (fun _ => false) (fun _ => false) frameDemoSample frameDemoWorld) 0
    = some (choose_action frameDemoAgent.personality frameDemoAgent.energy
        ["rest", "explore", "socialize"] 0 0) := by
  have hskip : run_simulation_step (fun _ => zeroOracle) (fun _ => false)
      (fun _ => false) frameDemoSample frameDemoWorld
      = simulate_step (fun _ => zeroOracle) frameDemoWorld :=
    npc_interactions_coins_false _ _ _
  have hstep : simulate_step (fun _ => zeroOracle) frameDemoWorld
      = List.foldl (fun w cid => take_action zeroOracle cid w)
          (take_action zeroOracle 0 (update_time frameDemoWorld 1))
          [1, 2, 3, 4, 5, 6, 7, 8, 9] := rfl
  have hfp := (foldl_fp (fun c w => take_action zeroOracle c w)
      (fun c w => fp_take_action zeroOracle c w) [1, 2, 3, 4, 5, 6, 7, 8, 9]
      (take_action zeroOracle 0 (update_time frameDemoWorld 1))).2.2.2 0
      (by decide)
  have hta : take_action zeroOracle 0 (update_time frameDemoWorld 1)
      = base_execute_action zeroOracle 0
          (choose_action frameDemoAgent.personality frameDemoAgent.energy
            ["rest", "explore", "socialize"] 0 0)
          (update_time frameDemoWorld 1) := rfl
  have hact := base_execute_action_activity zeroOracle 0
    (choose_action frameDemoAgent.personality frameDemoAgent.energy
      ["rest", "explore", "socialize"] 0 0)
    (update_time frameDemoWorld 1)
  have hW1 : agentActivity (update_time frameDemoWorld 1) 0
      = some "idle" := rfl
  rw [hskip, hstep]
  unfold agentActivity
  rw [hfp, hta]
  unfold agentActivity at hact hW1
  rw [hact, hW1]
  rfl

/-- C3 counterexample: in a world of sixty background characters with no
principals, with a valid random sample of min(50, population) = 50
background ids (ids 10–59) and every probability coin false, the
unsampled background agent 0 does not retain its prior state: it sits in
`npcs[:10]`, which `World.simulate_step` processes deterministically on
every step, so its current activity changes from "idle" to a chosen
action. -/
theorem simulate_step_processes_unsampled_npcs :
    frameDemoSample.length = min 50 frameDemoWorld.npcs.length
    ∧ frameDemoSample.Nodup
    ∧ (∀ c ∈ frameDemoSample, c ∈ frameDemoWorld.npcs)
    ∧ 0 ∉ frameDemoSample
    ∧ frameDemoWorld.ai_characters = []
    ∧ agentActivity frameDemoWorld 0 = some "idle"
    ∧ agentActivity (run_simulation_step (fun _ => zeroOracle)
        (fun _ => false) (fun _ => false) frameDemoSample frameDemoWorld) 0
      ≠ some "idle" := by
  refine ⟨by decide, by decide, by decide, by decide, rfl, rfl, ?_⟩
  rw [frameDemo_final_activity]
  intro hcontra
  have hmem := choose_action_mem frameDemoAgent.personality
    frameDemoAgent.energy ["rest", "explore", "socialize"] 0 0 (by simp)
  rw [Option.some.injEq] at hcontra
  rw [hcontra] at hmem
  exact absurd hmem (by decide)
